import Mathlib

/-!
Verification of the Cresville settlement-simulation core: a shallow embedding
of the world-generation engine (`js/world.js`) and the per-tick economy
(`js/economy.js`, `js/game.js`) together with theorems about the behaviour of
the embedded operations.

Modelling conventions:
* JavaScript numbers are modelled as exact rationals (`ℚ`); decimal literals
  such as `0.1` are taken to denote the exact rational `1/10`.
* 32-bit integer operations (`|0`, `^`, `>>>`, `Math.imul`) are modelled on
  the underlying unsigned 32-bit bit pattern, a `ℕ` below `2^32`.
* JavaScript object identity is made explicit by a heap (`List Structure`);
  an object reference is an index into the heap.  Tiles reference their
  structure by such an index, as does the economy's structure map, which
  makes the aliasing between the two observable.
* JavaScript `Map`s are association lists in insertion order; `mset`
  overwrites in place keeping the position and appends fresh keys, matching
  `Map.prototype.set`, and `merase` matches `Map.prototype.delete`.
-/

set_option maxRecDepth 8000
set_option maxHeartbeats 2000000

namespace Cresville

/-! ### Seeded PRNG (Mulberry32), `js/world.js` lines 1-18 -/

def U32 : ℕ := 4294967296

/-- Reduce a natural number to its low 32 bits. -/
def u32 (n : ℕ) : ℕ := n % U32

/-- The unsigned 32-bit pattern of a JavaScript number converted by `ToUint32`. -/
def toUint32 (n : ℤ) : ℕ := (n % (U32 : ℤ)).toNat

/-- The PRNG state stored by `new SeededRandom(seed)`, as a 32-bit pattern. -/
def mkRng (seed : ℤ) : ℕ := toUint32 seed

/-- One step of `SeededRandom.next`: returns the value in `[0,1)` and the new
state, operating on unsigned 32-bit patterns. -/
def rngNext (s : ℕ) : ℚ × ℕ :=
  let s1 := u32 (s + 0x6d2b79f5)
  let t1 := u32 ((s1 ^^^ (s1 >>> 15)) * (1 ||| s1))
  let t2 := u32 (t1 + u32 ((t1 ^^^ (t1 >>> 7)) * (61 ||| t1))) ^^^ t1
  let r := t2 ^^^ (t2 >>> 14)
  ((r : ℚ) / (U32 : ℚ), s1)

/-- `SeededRandom.nextInt(min, max)`:
`Math.floor(this.next() * (max - min + 1)) + min`. -/
def rngNextInt (s : ℕ) (lo hi : ℤ) : ℤ × ℕ :=
  let p := rngNext s
  (⌊p.1 * ((hi - lo + 1 : ℤ) : ℚ)⌋ + lo, p.2)

/-! ### Perlin-like noise, `js/world.js` lines 20-70 -/

/-- Swap two positions of a list (the destructuring swap in the shuffle). -/
def listSwap (l : List ℕ) (i j : ℕ) : List ℕ :=
  match l.get? i, l.get? j with
  | some a, some b => (l.set i b).set j a
  | _, _ => l

/-- One step of the Fisher-Yates shuffle in `generatePermutation`. -/
def fyStep (st : List ℕ × ℕ) (i : ℕ) : List ℕ × ℕ :=
  let p := rngNext st.2
  (listSwap st.1 i (⌊p.1 * ((i + 1 : ℕ) : ℚ)⌋).toNat, p.2)

/-- `PerlinNoise.generatePermutation`: shuffle `[0..255]` with the seeded RNG
(`i` running from 255 down to 1), then concatenate the table with itself. -/
def generatePermutation (seed : ℤ) : List ℕ :=
  let st := ((List.range 255).map (fun k => 255 - k)).foldl fyStep
    (List.range 256, mkRng seed)
  st.1 ++ st.1

/-- Table lookup `p[i]` (always in range for the supplied tables). -/
def permGet (p : List ℕ) (i : ℕ) : ℕ := (p.get? i).getD 0

/-- `PerlinNoise.fade`. -/
def fade (t : ℚ) : ℚ := t * t * t * (t * (t * 6 - 15) + 10)

/-- `PerlinNoise.lerp`. -/
def lerp (a b t : ℚ) : ℚ := a + (b - a) * t

/-- `PerlinNoise.grad`. -/
def grad (hash : ℕ) (x y : ℚ) : ℚ :=
  let h := hash &&& 15
  let u := if h < 8 then x else y
  let v := if h < 8 then y else x
  (if h &&& 1 = 0 then u else -u) + (if h &&& 2 = 0 then v else -v)

/-- `PerlinNoise.noise(x, y)`. -/
def noise (p : List ℕ) (x y : ℚ) : ℚ :=
  let xi := ((⌊x⌋ % 256).toNat : ℕ)
  let yi := ((⌊y⌋ % 256).toNat : ℕ)
  let xf := x - ⌊x⌋
  let yf := y - ⌊y⌋
  let u := fade xf
  let v := fade yf
  let aa := permGet p (permGet p xi + yi)
  let ab := permGet p (permGet p xi + yi + 1)
  let ba := permGet p (permGet p (xi + 1) + yi)
  let bb := permGet p (permGet p (xi + 1) + yi + 1)
  let x1 := lerp (grad aa xf yf) (grad ba (xf - 1) yf) u
  let x2 := lerp (grad ab xf (yf - 1)) (grad bb (xf - 1) (yf - 1)) u
  lerp x1 x2 v

/-- `Math.round` on an exact rational: round half toward positive infinity. -/
def jsRound (q : ℚ) : ℤ := ⌊q + 1/2⌋

/-! ### Data model: tiles, structures, the object heap -/

structure Resources where
  stone : ℚ
  iron : ℚ
  uranium : ℚ
deriving DecidableEq

/-- The per-structure `data` bag: an object whose properties depend on the
structure type; an absent property reads as `undefined` (`none`). -/
structure SData where
  residents : Option ℚ
  capacity : Option ℚ
  production : Option ℚ
  foodPerTick : Option ℚ
  resourceLevel : Option String
  extractedStone : Option ℚ
  woodPerTick : Option ℚ
deriving DecidableEq

/-- The `data` object literal `{}`. -/
def emptySData : SData := ⟨none, none, none, none, none, none, none⟩

structure Structure where
  type : String
  x : ℤ
  y : ℤ
  level : ℤ
  data : SData
deriving DecidableEq

/-- The heap of live structure objects; a reference is an index. -/
abbrev Heap := List Structure

/-- A terrain tile.  `structure'` is the tile's back-reference to its
structure object (`tile.structure` in the source), as a heap reference. -/
structure Tile where
  x : ℤ
  y : ℤ
  altitude : ℤ
  resources : Resources
  structure' : Option ℕ
  isForest : Bool
  forestHealth : ℚ
deriving DecidableEq

/-- `new Tile(x, y)`. -/
def Tile.new (x y : ℤ) : Tile :=
  ⟨x, y, 0, ⟨0, 0, 0⟩, none, false, 0⟩

/-! ### Association-list maps in insertion order (JavaScript `Map`) -/

/-- `Map.prototype.get` / `has`. -/
def mfind {β : Type} : List ((ℤ × ℤ) × β) → (ℤ × ℤ) → Option β
  | [], _ => none
  | (k', v) :: rest, k => if k' = k then some v else mfind rest k

/-- `Map.prototype.set`: overwrite in place, or append a fresh key. -/
def mset {β : Type} : List ((ℤ × ℤ) × β) → (ℤ × ℤ) → β → List ((ℤ × ℤ) × β)
  | [], k, v => [(k, v)]
  | (k', v') :: rest, k, v =>
    if k' = k then (k, v) :: rest else (k', v') :: mset rest k v

/-- `Map.prototype.delete`. -/
def merase {β : Type} : List ((ℤ × ℤ) × β) → (ℤ × ℤ) → List ((ℤ × ℤ) × β)
  | [], _ => []
  | (k', v') :: rest, k =>
    if k' = k then rest else (k', v') :: merase rest k

/-! ### World generation, `js/world.js` lines 112-199 -/

structure World where
  seed : ℤ
  tiles : List ((ℤ × ℤ) × Tile)
deriving DecidableEq

/-- `new World(seed)`: an empty tile store. -/
def World.new (seed : ℤ) : World := ⟨seed, []⟩

/-- The tile-local RNG state `this.seed + tile.x * 73856093 ^ tile.y * 19349663`
(the xor acting on the 32-bit patterns of its operands). -/
def resourceSeed (seed x y : ℤ) : ℕ :=
  toUint32 (seed + x * 73856093) ^^^ toUint32 (y * 19349663)

/-- The second tile-local RNG state,
`this.seed + tile.x * 83492791 ^ tile.y * 39916801`. -/
def forestSeed (seed x y : ℤ) : ℕ :=
  toUint32 (seed + x * 83492791) ^^^ toUint32 (y * 39916801)

/-- `World.generateResources`: stone always, iron and uranium by altitude
band, drawn in sequence from the tile-local RNG. -/
def generateResources (seed x y alt : ℤ) : Resources :=
  let s0 := resourceSeed seed x y
  let stoneP := rngNextInt s0 50 150
  let ironP :=
    if alt.natAbs < 5 then rngNextInt stoneP.2 20 80
    else if alt.natAbs < 10 then rngNextInt stoneP.2 5 30
    else ((0 : ℤ), stoneP.2)
  let uraniumP :=
    if alt.natAbs < 3 then rngNextInt ironP.2 1 10
    else if alt.natAbs < 8 then rngNextInt ironP.2 0 5
    else ((0 : ℤ), ironP.2)
  ⟨(stoneP.1 : ℚ), (ironP.1 : ℚ), (uraniumP.1 : ℚ)⟩

/-- `World.generateForest`: a second tile-local RNG
(`this.seed + tile.x * 83492791 ^ tile.y * 39916801`); a forest appears on
land (`altitude > -3`) when the forest noise exceeds `0.3` and a fresh draw
exceeds `0.6`; returns `(isForest, forestHealth)`. -/
def generateForest (seed : ℤ) (perm : List ℕ) (x y alt : ℤ) : Bool × ℚ :=
  let s0 := forestSeed seed x y
  if alt > -3 then
    let forestNoise := noise perm ((x : ℚ) * (5/100)) ((y : ℚ) * (5/100))
    let p := rngNext s0
    if forestNoise > 3/10 ∧ p.1 > 6/10 then
      (true, ((rngNextInt p.2 70 100).1 : ℚ))
    else (false, 0)
  else (false, 0)

/-- `World.generateTile` as a pure function of `(seed, x, y)` (its only
inputs besides the permutation table, itself a function of the seed). -/
def genTile (seed : ℤ) (perm : List ℕ) (x y : ℤ) : Tile :=
  let alt := jsRound (noise perm ((x : ℚ) * (1/10)) ((y : ℚ) * (1/10)) * 30 - 10)
  let fp := generateForest seed perm x y alt
  { x := x, y := y, altitude := alt,
    resources := generateResources seed x y alt,
    structure' := none, isForest := fp.1, forestHealth := fp.2 }

/-- `World.getTile`: return the cached tile, generating it on a miss. -/
def getTile (w : World) (x y : ℤ) : World × Tile :=
  match mfind w.tiles (x, y) with
  | some t => (w, t)
  | none =>
    let t := genTile w.seed (generatePermutation w.seed) x y
    ({ w with tiles := mset w.tiles (x, y) t }, t)

/-- Signed offsets `-h..h` in increasing order. -/
def offs (h : ℕ) : List ℤ :=
  (List.range (2 * h + 1)).map (fun (i : ℕ) => (i : ℤ) - (h : ℤ))

/-- `World.getTiles(centerX, centerY, gridSize)`: `halfGrid = ⌊gridSize/2⌋`,
rows `dy = -halfGrid..halfGrid` outer, columns `dx` inner. -/
def getTiles (w : World) (centerX centerY : ℤ) (gridSize : ℕ) : World × List Tile :=
  let halfGrid := gridSize / 2
  (offs halfGrid).foldl (fun acc dy =>
    (offs halfGrid).foldl (fun acc2 dx =>
      let p := getTile acc2.1 (centerX + dx) (centerY + dy)
      (p.1, acc2.2 ++ [p.2])) acc) (w, ([] : List Tile))

/-- `World.getMaxAltitudeDiff` (unknown types fall back to `1`). -/
def getMaxAltitudeDiff (structureType : String) : ℤ :=
  if structureType = "house" then 1
  else if structureType = "farm" then 1
  else if structureType = "mine" then 3
  else if structureType = "lumber" then 2
  else 1

structure BuildCheck where
  canBuild : Bool
  reason : Option String
deriving DecidableEq

/-- `World.canBuildStructure`: water, then forest, then the four
axis-adjacent neighbors (all fetched, generating on demand) against the
per-type altitude-difference limit. -/
def canBuildStructure (w : World) (tile : Tile) (structureType : String) :
    World × BuildCheck :=
  if tile.altitude < 0 then (w, ⟨false, some "Cannot build on water"⟩)
  else if tile.isForest then (w, ⟨false, some "Cannot build on forest"⟩)
  else
    let p1 := getTile w (tile.x - 1) tile.y
    let p2 := getTile p1.1 (tile.x + 1) tile.y
    let p3 := getTile p2.1 tile.x (tile.y - 1)
    let p4 := getTile p3.1 tile.x (tile.y + 1)
    let maxDiff := getMaxAltitudeDiff structureType
    if |p1.2.altitude - tile.altitude| > maxDiff ∨
       |p2.2.altitude - tile.altitude| > maxDiff ∨
       |p3.2.altitude - tile.altitude| > maxDiff ∨
       |p4.2.altitude - tile.altitude| > maxDiff then
      (p4.1, ⟨false, some ("Terrain too steep for " ++ structureType)⟩)
    else (p4.1, ⟨true, none⟩)

/-! ### Game state and economy, `js/economy.js` -/

structure Message where
  text : String
  type : String
  time : ℤ
deriving DecidableEq

structure GameState where
  money : ℚ
  food : ℚ
  wood : ℚ
  population : ℚ
  employed : ℚ
  incomeTaxRate : ℚ
  time : ℤ
  messages : List Message
deriving DecidableEq

/-- `new GameState()`. -/
def GameState.new : GameState := ⟨500, 50, 100, 0, 0, 1/10, 0, []⟩

/-- `GameState.addMessage`: append, dropping the oldest beyond 10 entries. -/
def addMessage (gs : GameState) (text : String) (type : String) : GameState :=
  let msgs := gs.messages ++ [⟨text, type, gs.time⟩]
  { gs with messages := if msgs.length > 10 then msgs.tail else msgs }

/-- The economy together with the state it references (`this.gameState`,
`this.world`) and the heap of live structure objects. -/
structure Economy where
  gameState : GameState
  world : World
  structures : List ((ℤ × ℤ) × ℕ)
  heap : Heap
deriving DecidableEq

structure Cost where
  money : ℚ
  wood : ℚ
  food : ℚ
deriving DecidableEq

/-- `Economy.getStructureCost` (unknown types cost nothing). -/
def getStructureCost (structureType : String) : Cost :=
  if structureType = "house" then ⟨100, 50, 0⟩
  else if structureType = "farm" then ⟨80, 30, 10⟩
  else if structureType = "mine" then ⟨120, 60, 0⟩
  else if structureType = "lumber" then ⟨50, 20, 0⟩
  else ⟨0, 0, 0⟩

/-- `Economy.getDefaultStructureData` (unknown types get `{}`). -/
def getDefaultStructureData (structureType : String) : SData :=
  if structureType = "house" then
    { emptySData with residents := some 0, capacity := some 5 }
  else if structureType = "farm" then
    { emptySData with production := some 0, foodPerTick := some (1/2) }
  else if structureType = "mine" then
    { emptySData with resourceLevel := some "stone", extractedStone := some 0 }
  else if structureType = "lumber" then
    { emptySData with woodPerTick := some (1/2) }
  else emptySData

structure BuildResult where
  success : Bool
  reason : Option String
  builtStructure : Option Structure
deriving DecidableEq

/-- `Economy.buildStructure(tile, structureType)`.  The tile argument is the
store's live tile for its coordinate (as at every call site); on success the
updated tile is written back to the store and the new structure object is
allocated on the heap, referenced by both the tile and the structure map. -/
def buildStructure (e : Economy) (tile : Tile) (structureType : String) :
    Economy × BuildResult :=
  let costs := getStructureCost structureType
  if e.gameState.money < costs.money then
    (e, ⟨false, some "Not enough money", none⟩)
  else if e.gameState.wood < costs.wood then
    (e, ⟨false, some "Not enough wood", none⟩)
  else if e.gameState.food < costs.food then
    (e, ⟨false, some "Not enough food", none⟩)
  else
    let bc := canBuildStructure e.world tile structureType
    let e1 := { e with world := bc.1 }
    if bc.2.canBuild = false then (e1, ⟨false, bc.2.reason, none⟩)
    else if tile.structure'.isSome then
      (e1, ⟨false, some "Tile already occupied", none⟩)
    else
      let gs := { e1.gameState with
        money := e1.gameState.money - costs.money,
        wood := e1.gameState.wood - costs.wood,
        food := e1.gameState.food - costs.food }
      let s : Structure :=
        ⟨structureType, tile.x, tile.y, 1, getDefaultStructureData structureType⟩
      let r := e1.heap.length
      let tile' := { tile with structure' := some r }
      let gs' := addMessage gs
        ("Built " ++ structureType ++ " at (" ++ toString tile.x ++ ", " ++
          toString tile.y ++ ")") "success"
      ({ e1 with
          gameState := gs',
          world := { e1.world with tiles := mset e1.world.tiles (tile.x, tile.y) tile' },
          structures := mset e1.structures (tile.x, tile.y) r,
          heap := e1.heap ++ [s] },
        ⟨true, none, some s⟩)

/-- `Economy.destroyStructure(x, y)`: remove the map entry if present and
clear the tile's back-reference (fetching the tile, generating on demand). -/
def destroyStructure (e : Economy) (x y : ℤ) : Economy :=
  match mfind e.structures (x, y) with
  | none => e
  | some _ =>
    let structures' := merase e.structures (x, y)
    let p := getTile e.world x y
    { e with
      structures := structures',
      world := { p.1 with tiles := mset p.1.tiles (x, y) { p.2 with structure' := none } } }

/-! ### The tick, `js/economy.js` lines 114-252 -/

/-- Farm-income stage: iterate the structure map's entries (a `Map` iterator
skips entries deleted before being reached, the only mutation being the
bankruptcy `destroyStructure` of the entry under scrutiny); accumulate net
income, destroying bankrupt farms and updating survivors' `foodPerTick`. -/
def farmLoop : List ((ℤ × ℤ) × ℕ) → Economy → ℚ → Economy × ℚ
  | [], e, inc => (e, inc)
  | (k, r) :: rest, e, inc =>
    if mfind e.structures k = some r then
      match e.heap.get? r with
      | none => farmLoop rest e inc
      | some s =>
        if s.type = "farm" then
          let income : ℚ := 10
          let tax := income * e.gameState.incomeTaxRate
          let netIncome := income - tax
          if netIncome ≤ 0 then
            let e1 := destroyStructure e s.x s.y
            let gs1 := addMessage e1.gameState "Farm went bankrupt due to high taxes" "error"
            farmLoop rest { e1 with gameState := gs1 } inc
          else
            let s' := { s with data :=
              { s.data with foodPerTick := some (1 + (1/2) * ((s.level : ℚ) - 1)) } }
            farmLoop rest { e with heap := e.heap.set r s' } (inc + netIncome)
        else farmLoop rest e inc
    else farmLoop rest e inc

/-- Food consumption followed by starvation-driven emigration. -/
def consumeStage (gs : GameState) : GameState :=
  let food' := gs.food - gs.population * (1/2)
  if food' < 0 then
    let leavers : ℤ := ⌈-food' / 5⌉
    let gs1 := { gs with
      population := gs.population - min (leavers : ℚ) gs.population,
      food := 0 }
    if leavers > 0 then
      addMessage gs1 (toString leavers ++ " people left due to hunger") "warning"
    else gs1
  else { gs with food := food' }

/-- Sum of a possibly-`undefined` capacity (`undefined` poisons to `NaN`,
modelled as `none`, under which every later comparison is false). -/
def capAdd (acc : Option ℚ) (c : Option ℚ) : Option ℚ :=
  match acc, c with
  | some a, some b => some (a + b)
  | _, _ => none

/-- House-capacity total and population growth. -/
def growthStage (e : Economy) : Economy :=
  let totalCap := (e.structures.map Prod.snd).foldl (fun acc r =>
    match e.heap.get? r with
    | some s => if s.type = "house" then capAdd acc s.data.capacity else acc
    | none => acc) (some (0 : ℚ))
  match totalCap with
  | none => e
  | some tc =>
    if e.gameState.population < tc ∧ e.gameState.food > 50 then
      { e with gameState := { e.gameState with
          population := e.gameState.population + min 2 (tc - e.gameState.population) } }
    else e

/-- First lumber scan: count forested tiles with positive health in the
17x17 square (`dx` outer, `dy` inner), generating tiles on demand. -/
def countForests (w : World) (lx ly : ℤ) : World × ℕ :=
  (offs 8).foldl (fun acc dx =>
    (offs 8).foldl (fun acc2 dy =>
      let p := getTile acc2.1 (lx + dx) (ly + dy)
      (p.1, if p.2.isForest ∧ p.2.forestHealth > 0 then acc2.2 + 1 else acc2.2))
      acc) (w, 0)

/-- One inner (`dy`) row of the damage scan: decrement each live forest tile
by `0.1`, clearing the forest flag and breaking out of the row when a tile's
health crosses to `≤ 0`. -/
def damageRow (lx ly dx : ℤ) : World → List ℤ → World
  | w, [] => w
  | w, dy :: rest =>
    let p := getTile w (lx + dx) (ly + dy)
    if p.2.isForest ∧ p.2.forestHealth > 0 then
      let fh := p.2.forestHealth - 1/10
      if fh ≤ 0 then
        let t' := { p.2 with forestHealth := fh, isForest := false }
        { p.1 with tiles := mset p.1.tiles (lx + dx, ly + dy) t' }
      else
        let t' := { p.2 with forestHealth := fh }
        damageRow lx ly dx { p.1 with tiles := mset p.1.tiles (lx + dx, ly + dy) t' } rest
    else damageRow lx ly dx p.1 rest

/-- One lumber structure's tick: if any live forest is in range, add
`0.5 * level` wood and run the damage scan. -/
def tickLumber (e : Economy) (lum : Structure) : Economy :=
  let cf := countForests e.world lum.x lum.y
  if cf.2 > 0 then
    let woodPerTick := (1/2) * (lum.level : ℚ)
    { e with
      gameState := { e.gameState with wood := e.gameState.wood + woodPerTick },
      world := (offs 8).foldl (fun w dx => damageRow lum.x lum.y dx w (offs 8)) cf.1 }
  else { e with world := cf.1 }

/-- Resource availability scan of the 9x9 square around a mine
(`dx` outer, `dy` inner), generating tiles on demand. -/
def scanResources (w : World) (mx my : ℤ) : World × Resources :=
  (offs 4).foldl (fun acc dx =>
    (offs 4).foldl (fun acc2 dy =>
      let p := getTile acc2.1 (mx + dx) (my + dy)
      (p.1, ⟨acc2.2.stone + p.2.resources.stone,
             acc2.2.iron + p.2.resources.iron,
             acc2.2.uranium + p.2.resources.uranium⟩)) acc)
    (w, (⟨0, 0, 0⟩ : Resources))

/-- `undefined`-tolerant accumulation into `extractedStone` (`NaN` sticks). -/
def optAdd (a : Option ℚ) (b : ℚ) : Option ℚ := a.map (· + b)

/-- `a >= 100` with `NaN`/`undefined` comparing false. -/
def optGe (a : Option ℚ) (b : ℚ) : Bool :=
  match a with
  | some v => v ≥ b
  | none => false

/-- `Economy.tickMine` on the structure object at heap reference `r`. -/
def tickMine (e : Economy) (r : ℕ) : Economy :=
  match e.heap.get? r with
  | none => e
  | some mine =>
    let sc := scanResources e.world mine.x mine.y
    let e1 := { e with world := sc.1 }
    let avail := sc.2
    if mine.data.resourceLevel = some "stone" ∧ avail.stone > 0 then
      let mined := min 1 avail.stone
      let gs1 := { e1.gameState with wood := e1.gameState.wood + mined * (1/2) }
      let ext := optAdd mine.data.extractedStone mined
      if optGe ext 100 then
        let mine' := { mine with data := { mine.data with
          resourceLevel := some "iron", extractedStone := some 0 } }
        let gs2 := addMessage gs1 "Mine upgraded to iron extraction" "success"
        { e1 with gameState := gs2, heap := e1.heap.set r mine' }
      else
        let mine' := { mine with data := { mine.data with extractedStone := ext } }
        { e1 with gameState := gs1, heap := e1.heap.set r mine' }
    else if mine.data.resourceLevel = some "iron" ∧ avail.iron > 0 then
      let mined := min (1/2) avail.iron
      let gs1 := { e1.gameState with wood := e1.gameState.wood + mined * 1 }
      let ext := optAdd mine.data.extractedStone mined
      if optGe ext 100 then
        let mine' := { mine with data := { mine.data with
          resourceLevel := some "uranium", extractedStone := some 0 } }
        let gs2 := addMessage gs1 "Mine upgraded to uranium extraction" "success"
        { e1 with gameState := gs2, heap := e1.heap.set r mine' }
      else
        let mine' := { mine with data := { mine.data with extractedStone := ext } }
        { e1 with gameState := gs1, heap := e1.heap.set r mine' }
    else if mine.data.resourceLevel = some "uranium" ∧ avail.uranium > 0 then
      let mined := min (1/5) avail.uranium
      { e1 with gameState :=
        { e1.gameState with wood := e1.gameState.wood + mined * 2 } }
    else e1

/-- Lumber stage: the snapshot filter
`Array.from(this.structures.values()).filter(s => s.type === 'lumber')`. -/
def lumberRefs (e : Economy) : List ℕ :=
  (e.structures.map Prod.snd).filter (fun r =>
    match e.heap.get? r with
    | some s => s.type = "lumber"
    | none => false)

/-- Lumber stage loop over the snapshot of references. -/
def lumberStage (e : Economy) : Economy :=
  (lumberRefs e).foldl (fun e' r =>
    match e'.heap.get? r with
    | some lum => tickLumber e' lum
    | none => e') e

/-- Mine stage: iterate the structure map, ticking each mine. -/
def mineStage (e : Economy) : Economy :=
  (e.structures.map Prod.snd).foldl (fun e' r =>
    match e'.heap.get? r with
    | some s => if s.type = "mine" then tickMine e' r else e'
    | none => e') e

/-- `Economy.tick`: farm income, food consumption, starvation, growth,
lumber production, mining, in that order. -/
def tick (e : Economy) : Economy :=
  let fp := farmLoop e.structures e 0
  let e2 := { fp.1 with gameState :=
    { fp.1.gameState with money := fp.1.gameState.money + fp.2 } }
  let e3 := { e2 with gameState := consumeStage e2.gameState }
  mineStage (lumberStage (growthStage e3))

/-! ### Serialization, `js/world.js` 88-108 and 240-255, `js/economy.js` 21-37
and 272-284, `js/game.js` 84-125.

`toJSON` produces plain data (the parse tree of the persisted JSON);
`fromJSON` rehydrates it, allocating a fresh heap object for every structure
record encountered, exactly as `JSON.parse` does. -/

structure TileJSON where
  x : ℤ
  y : ℤ
  altitude : ℤ
  resources : Resources
  structure' : Option Structure
  isForest : Bool
  forestHealth : ℚ
deriving DecidableEq

/-- `Tile.toJSON` (the back-reference serializes as the object's content). -/
def Tile.toJSON (heap : Heap) (t : Tile) : TileJSON :=
  ⟨t.x, t.y, t.altitude, t.resources, t.structure'.bind (fun r => heap.get? r),
    t.isForest, t.forestHealth⟩

/-- `Tile.fromJSON`: rebuild the tile; a serialized structure becomes a fresh
heap object referenced by the tile. -/
def Tile.fromJSON (heap : Heap) (d : TileJSON) : Heap × Tile :=
  match d.structure' with
  | none => (heap, ⟨d.x, d.y, d.altitude, d.resources, none, d.isForest, d.forestHealth⟩)
  | some s =>
    (heap ++ [s],
      ⟨d.x, d.y, d.altitude, d.resources, some heap.length, d.isForest, d.forestHealth⟩)

structure WorldJSON where
  seed : ℤ
  tiles : List TileJSON
deriving DecidableEq

/-- `World.toJSON`: the seed and the generated tiles in store order. -/
def World.toJSON (heap : Heap) (w : World) : WorldJSON :=
  ⟨w.seed, w.tiles.map (fun kv => Tile.toJSON heap kv.2)⟩

/-- `World.fromJSON`: a fresh world re-keyed from the serialized tiles. -/
def World.fromJSON (heap : Heap) (d : WorldJSON) : Heap × World :=
  d.tiles.foldl (fun acc td =>
    let p := Tile.fromJSON acc.1 td
    (p.1, { acc.2 with tiles := mset acc.2.tiles (p.2.x, p.2.y) p.2 }))
    (heap, World.new d.seed)

structure GameStateJSON where
  money : ℚ
  food : ℚ
  wood : ℚ
  population : ℚ
  employed : ℚ
  incomeTaxRate : ℚ
  time : ℤ
deriving DecidableEq

/-- `GameState.toJSON` (messages are not serialized). -/
def GameState.toJSON (gs : GameState) : GameStateJSON :=
  ⟨gs.money, gs.food, gs.wood, gs.population, gs.employed, gs.incomeTaxRate, gs.time⟩

/-- `GameState.fromJSON`: `Object.assign(new GameState(), data)` — the seven
serialized fields are restored, messages stay at the constructor's `[]`. -/
def GameState.fromJSON (d : GameStateJSON) : GameState :=
  ⟨d.money, d.food, d.wood, d.population, d.employed, d.incomeTaxRate, d.time, []⟩

structure EconomyJSON where
  structures : List Structure
deriving DecidableEq

/-- `Economy.toJSON`: the structure objects in map order, by content. -/
def Economy.toJSON (e : Economy) : EconomyJSON :=
  ⟨(e.structures.map Prod.snd).filterMap (fun r => e.heap.get? r)⟩

/-- `Economy.fromJSON`: a fresh economy over the given world; every
serialized structure is allocated as a fresh heap object and keyed by its
own coordinates. -/
def Economy.fromJSON (d : EconomyJSON) (world : World) (heap : Heap) : Economy :=
  d.structures.foldl (fun e s =>
    { e with structures := mset e.structures (s.x, s.y) e.heap.length,
             heap := e.heap ++ [s] })
    ⟨GameState.new, world, [], heap⟩

structure SaveData where
  gameState : GameStateJSON
  world : WorldJSON
  economy : EconomyJSON
deriving DecidableEq

/-- `Game.saveGame` (the parts of the save record the load path consumes). -/
def saveGame (e : Economy) : SaveData :=
  ⟨GameState.toJSON e.gameState, World.toJSON e.heap e.world, Economy.toJSON e⟩

/-- `Game.loadGame`: rehydrate world, game state and economy from a save,
starting from an empty heap (a fresh page session), and point the economy at
the restored game state. -/
def loadGame (d : SaveData) : Economy :=
  let pw := World.fromJSON [] d.world
  let econ := Economy.fromJSON d.economy pw.2 pw.1
  { econ with gameState := GameState.fromJSON d.gameState }

/-! ### Lemmas about the association-list maps -/

theorem mfind_mset {β : Type} (m : List ((ℤ × ℤ) × β)) (k k' : ℤ × ℤ) (v : β) :
    mfind (mset m k v) k' = if k = k' then some v else mfind m k' := by
  induction m with
  | nil => simp [mset, mfind]
  | cons hd tl ih =>
    obtain ⟨k0, v0⟩ := hd
    simp only [mset]
    by_cases h0 : k0 = k
    · subst h0
      simp only [if_pos rfl]
      by_cases h1 : k0 = k' <;> simp [mfind, h1]
    · simp only [if_neg h0]
      by_cases h1 : k0 = k'
      · subst h1
        have hkk : ¬k = k0 := fun hh => h0 hh.symm
        simp [mfind, hkk]
      · simp [mfind, h1, ih]

theorem mfind_mset_self {β : Type} (m : List ((ℤ × ℤ) × β)) (k : ℤ × ℤ) (v : β) :
    mfind (mset m k v) k = some v := by
  rw [mfind_mset]
  simp

theorem mfind_mset_ne {β : Type} (m : List ((ℤ × ℤ) × β)) {k k' : ℤ × ℤ} (v : β)
    (h : k ≠ k') : mfind (mset m k v) k' = mfind m k' := by
  rw [mfind_mset]
  simp [h]

theorem merase_sublist {β : Type} (m : List ((ℤ × ℤ) × β)) (k : ℤ × ℤ) :
    (merase m k).Sublist m := by
  induction m with
  | nil => simp [merase]
  | cons hd tl ih =>
    obtain ⟨k0, v0⟩ := hd
    by_cases h0 : k0 = k
    · simp only [merase, if_pos h0]
      exact List.sublist_cons_self _ _
    · simpa only [merase, if_neg h0] using ih.cons₂ _

theorem mfind_merase_ne {β : Type} (m : List ((ℤ × ℤ) × β)) {k k' : ℤ × ℤ}
    (h : k ≠ k') : mfind (merase m k) k' = mfind m k' := by
  induction m with
  | nil => simp [merase, mfind]
  | cons hd tl ih =>
    obtain ⟨k0, v0⟩ := hd
    simp only [merase]
    by_cases h0 : k0 = k
    · subst h0
      have hk' : ¬k0 = k' := fun hh => h (hh ▸ rfl)
      simp [mfind, hk']
    · simp only [if_neg h0]
      by_cases h1 : k0 = k' <;> simp [mfind, h1, ih]

/-- Key uniqueness, the `Map` representation invariant. -/
def keysNodup {β : Type} (m : List ((ℤ × ℤ) × β)) : Prop :=
  (m.map Prod.fst).Nodup

theorem mfind_eq_none_iff {β : Type} (m : List ((ℤ × ℤ) × β)) (k : ℤ × ℤ) :
    mfind m k = none ↔ k ∉ m.map Prod.fst := by
  induction m with
  | nil => simp [mfind]
  | cons hd tl ih =>
    obtain ⟨k0, v0⟩ := hd
    by_cases h0 : k0 = k <;> simp [mfind, h0, ih]
    intro h
    exact fun hk => h0 hk.symm

theorem mfind_merase_self {β : Type} (m : List ((ℤ × ℤ) × β)) (k : ℤ × ℤ)
    (h : keysNodup m) : mfind (merase m k) k = none := by
  induction m with
  | nil => simp [merase, mfind]
  | cons hd tl ih =>
    obtain ⟨k0, v0⟩ := hd
    simp only [keysNodup, List.map_cons, List.nodup_cons] at h
    by_cases h0 : k0 = k
    · subst h0
      simp only [merase, if_pos rfl]
      exact (mfind_eq_none_iff tl k0).2 h.1
    · simp only [merase, if_neg h0, mfind, if_neg h0]
      exact ih h.2

theorem keysNodup_merase {β : Type} (m : List ((ℤ × ℤ) × β)) (k : ℤ × ℤ)
    (h : keysNodup m) : keysNodup (merase m k) :=
  ((merase_sublist m k).map Prod.fst).nodup h

theorem mset_keys_of_found {β : Type} (m : List ((ℤ × ℤ) × β)) (k : ℤ × ℤ) (v : β)
    (h : (mfind m k).isSome) : (mset m k v).map Prod.fst = m.map Prod.fst := by
  induction m with
  | nil => simp [mfind] at h
  | cons hd tl ih =>
    obtain ⟨k0, v0⟩ := hd
    by_cases h0 : k0 = k
    · subst h0
      simp [mset]
    · simp only [mfind, if_neg h0] at h
      simp [mset, if_neg h0, ih h]

theorem mset_keys_of_none {β : Type} (m : List ((ℤ × ℤ) × β)) (k : ℤ × ℤ) (v : β)
    (h : mfind m k = none) : (mset m k v).map Prod.fst = m.map Prod.fst ++ [k] := by
  induction m with
  | nil => simp [mset]
  | cons hd tl ih =>
    obtain ⟨k0, v0⟩ := hd
    by_cases h0 : k0 = k
    · simp [mfind, h0] at h
    · simp only [mfind, if_neg h0] at h
      simp [mset, if_neg h0, ih h]

theorem keysNodup_mset {β : Type} (m : List ((ℤ × ℤ) × β)) (k : ℤ × ℤ) (v : β)
    (h : keysNodup m) : keysNodup (mset m k v) := by
  cases hf : mfind m k with
  | some v' =>
    unfold keysNodup
    rw [mset_keys_of_found m k v (by simp [hf])]
    exact h
  | none =>
    unfold keysNodup
    rw [mset_keys_of_none m k v hf]
    have hk : k ∉ m.map Prod.fst := (mfind_eq_none_iff m k).1 hf
    rw [List.nodup_append]
    refine ⟨h, List.nodup_singleton _, ?_⟩
    intro a ha hak
    rw [List.mem_singleton] at hak
    exact hk (hak ▸ ha)

/-! ### Lemmas about `getTile` and generation-only reachability -/

theorem getTile_seed (w : World) (x y : ℤ) : (getTile w x y).1.seed = w.seed := by
  unfold getTile
  cases mfind w.tiles (x, y) <;> simp

theorem getTile_hit {w : World} {x y : ℤ} {t : Tile}
    (h : mfind w.tiles (x, y) = some t) : getTile w x y = (w, t) := by
  unfold getTile
  rw [h]

theorem getTile_miss {w : World} {x y : ℤ} (h : mfind w.tiles (x, y) = none) :
    getTile w x y =
      ({ w with tiles := mset w.tiles (x, y) (genTile w.seed (generatePermutation w.seed) x y) },
        genTile w.seed (generatePermutation w.seed) x y) := by
  unfold getTile
  rw [h]

theorem getTile_find_self (w : World) (x y : ℤ) :
    mfind (getTile w x y).1.tiles (x, y) = some (getTile w x y).2 := by
  unfold getTile
  cases h : mfind w.tiles (x, y) with
  | some t => simpa using h
  | none => simp [mfind_mset_self]

theorem getTile_find_ne (w : World) (x y : ℤ) {k : ℤ × ℤ} (h : k ≠ (x, y)) :
    mfind (getTile w x y).1.tiles k = mfind w.tiles k := by
  unfold getTile
  cases hf : mfind w.tiles (x, y) with
  | some t => simp
  | none => simp [mfind_mset_ne _ _ (Ne.symm h)]

theorem getTile_grow {w : World} {k : ℤ × ℤ} {t : Tile} (x y : ℤ)
    (h : mfind w.tiles k = some t) : mfind (getTile w x y).1.tiles k = some t := by
  by_cases hk : k = (x, y)
  · subst hk
    rw [getTile_hit h]
    exact h
  · rw [getTile_find_ne w x y hk]
    exact h

/-- Store well-formedness: every cached tile is exactly the pure generation
result for its key.  This holds for every store reachable by generation
alone from a fresh world. -/
def wfStore (w : World) : Prop :=
  ∀ k t, mfind w.tiles k = some t →
    t = genTile w.seed (generatePermutation w.seed) k.1 k.2

theorem wfStore_new (s : ℤ) : wfStore (World.new s) := by
  intro k t h
  simp [World.new, mfind] at h

theorem getTile_snd_of_wf {w : World} (hw : wfStore w) (x y : ℤ) :
    (getTile w x y).2 = genTile w.seed (generatePermutation w.seed) x y := by
  unfold getTile
  cases h : mfind w.tiles (x, y) with
  | some t => simpa using hw (x, y) t h
  | none => simp

theorem wfStore_getTile {w : World} (hw : wfStore w) (x y : ℤ) :
    wfStore (getTile w x y).1 := by
  intro k t h
  rw [getTile_seed]
  by_cases hk : k = (x, y)
  · subst hk
    rw [getTile_find_self] at h
    cases h
    exact getTile_snd_of_wf hw x y
  · rw [getTile_find_ne w x y hk] at h
    exact hw k t h

/-- Generate a sequence of coordinates in order (an arbitrary interleaving of
prior `getTile` accesses). -/
def genSeq (w : World) : List (ℤ × ℤ) → World
  | [] => w
  | c :: cs => genSeq (getTile w c.1 c.2).1 cs

theorem genSeq_seed (w : World) (l : List (ℤ × ℤ)) : (genSeq w l).seed = w.seed := by
  induction l generalizing w with
  | nil => rfl
  | cons c cs ih => rw [genSeq, ih, getTile_seed]

theorem wfStore_genSeq {w : World} (hw : wfStore w) (l : List (ℤ × ℤ)) :
    wfStore (genSeq w l) := by
  induction l generalizing w with
  | nil => exact hw
  | cons c cs ih => exact ih (wfStore_getTile hw c.1 c.2)

/-! ### Bounds on the PRNG output -/

theorem u32_lt (n : ℕ) : u32 n < U32 := by
  unfold u32
  exact Nat.mod_lt _ (by norm_num [U32])

theorem xor_lt_u32 {a b : ℕ} (ha : a < U32) (hb : b < U32) : a ^^^ b < U32 := by
  have h32 : U32 = 2 ^ 32 := by norm_num [U32]
  rw [h32] at ha hb ⊢
  exact Nat.bitwise_lt ha hb

theorem rngNext_nonneg (s : ℕ) : 0 ≤ (rngNext s).1 := by
  simp only [rngNext]
  positivity

theorem rngNext_lt_one (s : ℕ) : (rngNext s).1 < 1 := by
  have key : ∀ t2 : ℕ, t2 < U32 → ((t2 ^^^ t2 >>> 14 : ℕ) : ℚ) / (U32 : ℚ) < 1 := by
    intro t2 ht
    rw [div_lt_one (by norm_num [U32])]
    have hs : t2 >>> 14 ≤ t2 := by
      rw [Nat.shiftRight_eq_div_pow]
      exact Nat.div_le_self _ _
    exact_mod_cast xor_lt_u32 ht (lt_of_le_of_lt hs ht)
  exact key _ (xor_lt_u32 (u32_lt _) (u32_lt _))

theorem rngNextInt_mem (s : ℕ) {lo hi : ℤ} (h : lo ≤ hi) :
    lo ≤ (rngNextInt s lo hi).1 ∧ (rngNextInt s lo hi).1 ≤ hi := by
  have h0 := rngNext_nonneg s
  have h1 := rngNext_lt_one s
  unfold rngNextInt
  simp only
  have hq : (lo : ℚ) ≤ (hi : ℚ) := by exact_mod_cast h
  have hm : (0 : ℚ) < ((hi - lo + 1 : ℤ) : ℚ) := by push_cast; linarith
  constructor
  · have hf : (0 : ℤ) ≤ ⌊(rngNext s).1 * ((hi - lo + 1 : ℤ) : ℚ)⌋ :=
      Int.floor_nonneg.2 (mul_nonneg h0 hm.le)
    linarith
  · have hvm : (rngNext s).1 * ((hi - lo + 1 : ℤ) : ℚ) < ((hi - lo + 1 : ℤ) : ℚ) :=
      mul_lt_of_lt_one_left hm h1
    have hf : ⌊(rngNext s).1 * ((hi - lo + 1 : ℤ) : ℚ)⌋ < hi - lo + 1 :=
      Int.floor_lt.2 (by exact_mod_cast hvm)
    linarith

/-! ### Claim C1 -/

/-- C1: for every seed `s` and coordinate `(x, y)`, generating the tile at
`(x, y)` from two fresh `World` instances built with seed `s` yields the same
tile — identical altitude, resources (stone, iron, uranium), `isForest` and
initial `forestHealth` — regardless of which other tiles were generated
first and in which order (`order1`, `order2` are arbitrary access
sequences). -/
theorem c1_tile_generation_deterministic (s x y : ℤ) (order1 order2 : List (ℤ × ℤ)) :
    (getTile (genSeq (World.new s) order1) x y).2 =
      (getTile (genSeq (World.new s) order2) x y).2 := by
  have h1 := getTile_snd_of_wf (wfStore_genSeq (wfStore_new s) order1) x y
  have h2 := getTile_snd_of_wf (wfStore_genSeq (wfStore_new s) order2) x y
  rw [h1, h2, genSeq_seed, genSeq_seed]

/-! ### Claim C4 -/

/-- The RNG state from which the iron draw (when it happens) is taken:
the state left by the stone draw. -/
theorem generateResources_stone (seed x y alt : ℤ) :
    (generateResources seed x y alt).stone =
      (((rngNextInt (resourceSeed seed x y) 50 150).1 : ℤ) : ℚ) := rfl

theorem generateResources_iron_lo (seed x y alt : ℤ) (h : alt.natAbs < 5) :
    (generateResources seed x y alt).iron =
      (((rngNextInt (rngNextInt (resourceSeed seed x y) 50 150).2 20 80).1 : ℤ) : ℚ) := by
  unfold generateResources
  simp [h]

theorem generateResources_iron_mid (seed x y alt : ℤ) (h5 : ¬alt.natAbs < 5)
    (h10 : alt.natAbs < 10) :
    (generateResources seed x y alt).iron =
      (((rngNextInt (rngNextInt (resourceSeed seed x y) 50 150).2 5 30).1 : ℤ) : ℚ) := by
  unfold generateResources
  simp [h5, h10]

theorem generateResources_iron_hi (seed x y alt : ℤ) (h10 : ¬alt.natAbs < 10) :
    (generateResources seed x y alt).iron = 0 := by
  have h5 : ¬alt.natAbs < 5 := fun h => h10 (by omega)
  unfold generateResources
  simp [h5, h10]

/-- The RNG state from which the uranium draw is taken: the state after the
stone draw and, in the iron bands, the iron draw. -/
def uraniumState (seed x y alt : ℤ) : ℕ :=
  if alt.natAbs < 5 then (rngNextInt (rngNextInt (resourceSeed seed x y) 50 150).2 20 80).2
  else if alt.natAbs < 10 then (rngNextInt (rngNextInt (resourceSeed seed x y) 50 150).2 5 30).2
  else (rngNextInt (resourceSeed seed x y) 50 150).2

theorem generateResources_uranium_lo (seed x y alt : ℤ) (h : alt.natAbs < 3) :
    (generateResources seed x y alt).uranium =
      (((rngNextInt (uraniumState seed x y alt) 1 10).1 : ℤ) : ℚ) := by
  have h5 : alt.natAbs < 5 := Nat.lt_of_lt_of_le h (by norm_num)
  unfold generateResources uraniumState
  simp [h, h5]

theorem generateResources_uranium_mid (seed x y alt : ℤ) (h3 : ¬alt.natAbs < 3)
    (h8 : alt.natAbs < 8) :
    (generateResources seed x y alt).uranium =
      (((rngNextInt (uraniumState seed x y alt) 0 5).1 : ℤ) : ℚ) := by
  have h10 : alt.natAbs < 10 := by omega
  unfold generateResources uraniumState
  by_cases h5 : alt.natAbs < 5 <;> simp [h3, h5, h8, h10]

theorem generateResources_uranium_hi (seed x y alt : ℤ) (h8 : ¬alt.natAbs < 8) :
    (generateResources seed x y alt).uranium = 0 := by
  have h3 : ¬alt.natAbs < 3 := fun h => h8 (Nat.lt_of_lt_of_le h (by norm_num))
  unfold generateResources
  by_cases h5 : alt.natAbs < 5 <;> by_cases h10 : alt.natAbs < 10 <;>
    simp [h3, h5, h8, h10]

/-- Tile generation draws its resources exactly by this procedure. -/
theorem genTile_resources (seed : ℤ) (perm : List ℕ) (x y : ℤ) :
    (genTile seed perm x y).resources =
      generateResources seed x y (genTile seed perm x y).altitude := rfl

/-- C4: for every generated tile, iron is `nextInt(20,80)` when
`|altitude| < 5`, `nextInt(5,30)` when `5 ≤ |altitude| < 10`, and `0`
otherwise; uranium is `nextInt(1,10)` when `|altitude| < 3`, `nextInt(0,5)`
when `3 ≤ |altitude| < 8`, and `0` otherwise; a tile in a tighter band
receives exactly the tighter band's draw (never the looser one); stone is
always `nextInt(50,150)`.  Draws come in sequence from the tile-local RNG,
and each drawn quantity lies in the inclusive range of its band. -/
theorem c4_resource_altitude_bands (seed : ℤ) (perm : List ℕ) (x y : ℤ) :
    (genTile seed perm x y).resources.stone =
      (((rngNextInt (resourceSeed seed x y) 50 150).1 : ℤ) : ℚ) ∧
    (50 ≤ (genTile seed perm x y).resources.stone ∧
      (genTile seed perm x y).resources.stone ≤ 150) ∧
    ((genTile seed perm x y).altitude.natAbs < 5 →
      (genTile seed perm x y).resources.iron =
        (((rngNextInt (rngNextInt (resourceSeed seed x y) 50 150).2 20 80).1 : ℤ) : ℚ) ∧
      20 ≤ (genTile seed perm x y).resources.iron ∧
      (genTile seed perm x y).resources.iron ≤ 80) ∧
    (5 ≤ (genTile seed perm x y).altitude.natAbs →
      (genTile seed perm x y).altitude.natAbs < 10 →
      (genTile seed perm x y).resources.iron =
        (((rngNextInt (rngNextInt (resourceSeed seed x y) 50 150).2 5 30).1 : ℤ) : ℚ) ∧
      5 ≤ (genTile seed perm x y).resources.iron ∧
      (genTile seed perm x y).resources.iron ≤ 30) ∧
    (10 ≤ (genTile seed perm x y).altitude.natAbs →
      (genTile seed perm x y).resources.iron = 0) ∧
    ((genTile seed perm x y).altitude.natAbs < 3 →
      (genTile seed perm x y).resources.uranium =
        (((rngNextInt (uraniumState seed x y (genTile seed perm x y).altitude) 1 10).1 : ℤ) : ℚ) ∧
      1 ≤ (genTile seed perm x y).resources.uranium ∧
      (genTile seed perm x y).resources.uranium ≤ 10) ∧
    (3 ≤ (genTile seed perm x y).altitude.natAbs →
      (genTile seed perm x y).altitude.natAbs < 8 →
      (genTile seed perm x y).resources.uranium =
        (((rngNextInt (uraniumState seed x y (genTile seed perm x y).altitude) 0 5).1 : ℤ) : ℚ) ∧
      0 ≤ (genTile seed perm x y).resources.uranium ∧
      (genTile seed perm x y).resources.uranium ≤ 5) ∧
    (8 ≤ (genTile seed perm x y).altitude.natAbs →
      (genTile seed perm x y).resources.uranium = 0) := by
  rw [genTile_resources]
  set alt := (genTile seed perm x y).altitude
  refine ⟨generateResources_stone seed x y alt, ?_, ?_, ?_, ?_, ?_, ?_, ?_⟩
  · rw [generateResources_stone seed x y alt]
    have hb := rngNextInt_mem (resourceSeed seed x y) (by norm_num : (50 : ℤ) ≤ 150)
    exact ⟨by exact_mod_cast hb.1, by exact_mod_cast hb.2⟩
  · intro h
    rw [generateResources_iron_lo seed x y alt h]
    have hb := rngNextInt_mem (rngNextInt (resourceSeed seed x y) 50 150).2
      (by norm_num : (20 : ℤ) ≤ 80)
    exact ⟨rfl, by exact_mod_cast hb.1, by exact_mod_cast hb.2⟩
  · intro h5 h10
    rw [generateResources_iron_mid seed x y alt (by omega) h10]
    have hb := rngNextInt_mem (rngNextInt (resourceSeed seed x y) 50 150).2
      (by norm_num : (5 : ℤ) ≤ 30)
    exact ⟨rfl, by exact_mod_cast hb.1, by exact_mod_cast hb.2⟩
  · intro h10
    exact generateResources_iron_hi seed x y alt (by omega)
  · intro h
    rw [generateResources_uranium_lo seed x y alt h]
    have hb := rngNextInt_mem (uraniumState seed x y alt) (by norm_num : (1 : ℤ) ≤ 10)
    exact ⟨rfl, by exact_mod_cast hb.1, by exact_mod_cast hb.2⟩
  · intro h3 h8
    rw [generateResources_uranium_mid seed x y alt (by omega) h8]
    have hb := rngNextInt_mem (uraniumState seed x y alt) (by norm_num : (0 : ℤ) ≤ 5)
    exact ⟨rfl, by exact_mod_cast hb.1, by exact_mod_cast hb.2⟩
  · intro h8
    exact generateResources_uranium_hi seed x y alt (by omega)

/-! ### Claim C3 -/

/-- C3: `buildStructure` evaluates its preconditions in the order money,
wood, food, terrain (inside `canBuildStructure`: water, then forest, then
neighbor altitude difference), then occupancy, and returns the reason of the
first failing check, leaving the state untouched on the resource failures.
In particular a request with `money < cost.money` fails with the money
reason whatever the terrain looks like. -/
theorem c3_build_precondition_order (e : Economy) (tile : Tile) (ty : String) :
    (e.gameState.money < (getStructureCost ty).money →
      buildStructure e tile ty = (e, ⟨false, some "Not enough money", none⟩)) ∧
    (¬e.gameState.money < (getStructureCost ty).money →
      e.gameState.wood < (getStructureCost ty).wood →
      buildStructure e tile ty = (e, ⟨false, some "Not enough wood", none⟩)) ∧
    (¬e.gameState.money < (getStructureCost ty).money →
      ¬e.gameState.wood < (getStructureCost ty).wood →
      e.gameState.food < (getStructureCost ty).food →
      buildStructure e tile ty = (e, ⟨false, some "Not enough food", none⟩)) ∧
    (¬e.gameState.money < (getStructureCost ty).money →
      ¬e.gameState.wood < (getStructureCost ty).wood →
      ¬e.gameState.food < (getStructureCost ty).food →
      (canBuildStructure e.world tile ty).2.canBuild = false →
      buildStructure e tile ty =
        ({ e with world := (canBuildStructure e.world tile ty).1 },
          ⟨false, (canBuildStructure e.world tile ty).2.reason, none⟩)) ∧
    (tile.altitude < 0 →
      canBuildStructure e.world tile ty = (e.world, ⟨false, some "Cannot build on water"⟩)) ∧
    (¬tile.altitude < 0 → tile.isForest = true →
      canBuildStructure e.world tile ty = (e.world, ⟨false, some "Cannot build on forest"⟩)) ∧
    (¬tile.altitude < 0 → ¬tile.isForest = true →
      (canBuildStructure e.world tile ty).2.canBuild = false →
      (canBuildStructure e.world tile ty).2.reason = some ("Terrain too steep for " ++ ty)) ∧
    (¬e.gameState.money < (getStructureCost ty).money →
      ¬e.gameState.wood < (getStructureCost ty).wood →
      ¬e.gameState.food < (getStructureCost ty).food →
      (canBuildStructure e.world tile ty).2.canBuild = true →
      tile.structure'.isSome = true →
      buildStructure e tile ty =
        ({ e with world := (canBuildStructure e.world tile ty).1 },
          ⟨false, some "Tile already occupied", none⟩)) ∧
    (¬e.gameState.money < (getStructureCost ty).money →
      ¬e.gameState.wood < (getStructureCost ty).wood →
      ¬e.gameState.food < (getStructureCost ty).food →
      (canBuildStructure e.world tile ty).2.canBuild = true →
      tile.structure' = none →
      (buildStructure e tile ty).2.success = true) := by
  refine ⟨?_, ?_, ?_, ?_, ?_, ?_, ?_, ?_, ?_⟩
  · intro h1
    unfold buildStructure
    rw [if_pos h1]
  · intro h1 h2
    unfold buildStructure
    rw [if_neg h1, if_pos h2]
  · intro h1 h2 h3
    unfold buildStructure
    rw [if_neg h1, if_neg h2, if_pos h3]
  · intro h1 h2 h3 h4
    unfold buildStructure
    rw [if_neg h1, if_neg h2, if_neg h3, if_pos h4]
  · intro h1
    unfold canBuildStructure
    rw [if_pos h1]
  · intro h1 h2
    unfold canBuildStructure
    rw [if_neg h1, if_pos h2]
  · intro h1 h2 h3
    unfold canBuildStructure
    unfold canBuildStructure at h3
    rw [if_neg h1, if_neg (by simpa using h2)]
    rw [if_neg h1, if_neg (by simpa using h2)] at h3
    by_cases hsteep :
      |(getTile e.world (tile.x - 1) tile.y).2.altitude - tile.altitude| > getMaxAltitudeDiff ty ∨
      |(getTile (getTile e.world (tile.x - 1) tile.y).1 (tile.x + 1) tile.y).2.altitude - tile.altitude| > getMaxAltitudeDiff ty ∨
      |(getTile (getTile (getTile e.world (tile.x - 1) tile.y).1 (tile.x + 1) tile.y).1 tile.x (tile.y - 1)).2.altitude - tile.altitude| > getMaxAltitudeDiff ty ∨
      |(getTile (getTile (getTile (getTile e.world (tile.x - 1) tile.y).1 (tile.x + 1) tile.y).1 tile.x (tile.y - 1)).1 tile.x (tile.y + 1)).2.altitude - tile.altitude| > getMaxAltitudeDiff ty
    · simp only [if_pos hsteep]
    · rw [if_neg hsteep] at h3
      simp at h3
  · intro h1 h2 h3 h4 h5
    unfold buildStructure
    rw [if_neg h1, if_neg h2, if_neg h3, if_neg (by simp [h4]), if_pos h5]
  · intro h1 h2 h3 h4 h5
    unfold buildStructure
    rw [if_neg h1, if_neg h2, if_neg h3, if_neg (by simp [h4]),
      if_neg (by simp [h5])]

/-! ### Frame lemmas for the tick stages -/

@[simp] theorem addMessage_money (gs : GameState) (t ty : String) :
    (addMessage gs t ty).money = gs.money := rfl

@[simp] theorem addMessage_food (gs : GameState) (t ty : String) :
    (addMessage gs t ty).food = gs.food := rfl

@[simp] theorem addMessage_wood (gs : GameState) (t ty : String) :
    (addMessage gs t ty).wood = gs.wood := rfl

@[simp] theorem addMessage_population (gs : GameState) (t ty : String) :
    (addMessage gs t ty).population = gs.population := rfl

@[simp] theorem addMessage_employed (gs : GameState) (t ty : String) :
    (addMessage gs t ty).employed = gs.employed := rfl

@[simp] theorem addMessage_incomeTaxRate (gs : GameState) (t ty : String) :
    (addMessage gs t ty).incomeTaxRate = gs.incomeTaxRate := rfl

@[simp] theorem addMessage_time (gs : GameState) (t ty : String) :
    (addMessage gs t ty).time = gs.time := rfl

@[simp] theorem destroyStructure_gameState (e : Economy) (x y : ℤ) :
    (destroyStructure e x y).gameState = e.gameState := by
  unfold destroyStructure
  cases mfind e.structures (x, y) <;> rfl

@[simp] theorem destroyStructure_heap (e : Economy) (x y : ℤ) :
    (destroyStructure e x y).heap = e.heap := by
  unfold destroyStructure
  cases mfind e.structures (x, y) <;> rfl

/-- Generic preservation of a predicate along a left fold. -/
theorem foldl_preserve {α β : Type} (P : α → Prop) (f : α → β → α)
    (hf : ∀ a b, P a → P (f a b)) :
    ∀ (l : List β) (a : α), P a → P (l.foldl f a) := by
  intro l
  induction l with
  | nil => intro a ha; exact ha
  | cons b bs ih => intro a ha; exact ih _ (hf a b ha)

/-- The tuple of scalar game-state fields (everything but the message log). -/
def gsScalars (gs : GameState) : ℚ × ℚ × ℚ × ℚ × ℚ × ℚ × ℤ :=
  (gs.money, gs.food, gs.wood, gs.population, gs.employed, gs.incomeTaxRate, gs.time)

/-- The farm loop leaves every scalar of the game state untouched (income is
added only after the loop; the loop itself only logs messages, destroys
structures and updates heap objects). -/
theorem farmLoop_gsScalars : ∀ (l : List ((ℤ × ℤ) × ℕ)) (e : Economy) (inc : ℚ),
    gsScalars (farmLoop l e inc).1.gameState = gsScalars e.gameState := by
  intro l
  induction l with
  | nil => intro e inc; rfl
  | cons hd tl ih =>
    intro e inc
    obtain ⟨k, r⟩ := hd
    simp only [farmLoop]
    by_cases hg : mfind e.structures k = some r
    · rw [if_pos hg]
      cases hr : e.heap.get? r with
      | none => exact ih e inc
      | some s =>
        simp only
        by_cases hf : s.type = "farm"
        · rw [if_pos hf]
          by_cases hnet : (10 : ℚ) - 10 * e.gameState.incomeTaxRate ≤ 0
          · rw [if_pos hnet]
            refine (ih _ _).trans ?_
            simp [gsScalars]
          · rw [if_neg hnet]
            exact (ih _ _).trans rfl
        · rw [if_neg hf]
          exact ih e inc
    · rw [if_neg hg]
      exact ih e inc

theorem farmLoop_money (l : List ((ℤ × ℤ) × ℕ)) (e : Economy) (inc : ℚ) :
    (farmLoop l e inc).1.gameState.money = e.gameState.money :=
  congrArg (fun p => p.1) (farmLoop_gsScalars l e inc)

theorem farmLoop_food (l : List ((ℤ × ℤ) × ℕ)) (e : Economy) (inc : ℚ) :
    (farmLoop l e inc).1.gameState.food = e.gameState.food :=
  congrArg (fun p => p.2.1) (farmLoop_gsScalars l e inc)

theorem farmLoop_wood (l : List ((ℤ × ℤ) × ℕ)) (e : Economy) (inc : ℚ) :
    (farmLoop l e inc).1.gameState.wood = e.gameState.wood :=
  congrArg (fun p => p.2.2.1) (farmLoop_gsScalars l e inc)

theorem farmLoop_population (l : List ((ℤ × ℤ) × ℕ)) (e : Economy) (inc : ℚ) :
    (farmLoop l e inc).1.gameState.population = e.gameState.population :=
  congrArg (fun p => p.2.2.2.1) (farmLoop_gsScalars l e inc)

theorem farmLoop_incomeTaxRate (l : List ((ℤ × ℤ) × ℕ)) (e : Economy) (inc : ℚ) :
    (farmLoop l e inc).1.gameState.incomeTaxRate = e.gameState.incomeTaxRate :=
  congrArg (fun p => p.2.2.2.2.2.1) (farmLoop_gsScalars l e inc)

@[simp] theorem consumeStage_money (gs : GameState) :
    (consumeStage gs).money = gs.money := by
  unfold consumeStage
  dsimp only
  split
  · split <;> simp
  · rfl

@[simp] theorem consumeStage_wood (gs : GameState) :
    (consumeStage gs).wood = gs.wood := by
  unfold consumeStage
  dsimp only
  split
  · split <;> simp
  · rfl

@[simp] theorem consumeStage_incomeTaxRate (gs : GameState) :
    (consumeStage gs).incomeTaxRate = gs.incomeTaxRate := by
  unfold consumeStage
  dsimp only
  split
  · split <;> simp
  · rfl

theorem consumeStage_food_nonneg (gs : GameState) : 0 ≤ (consumeStage gs).food := by
  unfold consumeStage
  dsimp only
  by_cases h : gs.food - gs.population * (1/2) < 0
  · rw [if_pos h]
    split <;> simp
  · rw [if_neg h]
    simpa using not_lt.1 h

@[simp] theorem growthStage_gs_food (e : Economy) :
    (growthStage e).gameState.food = e.gameState.food := by
  unfold growthStage
  dsimp only
  split
  · rfl
  · split <;> rfl

@[simp] theorem growthStage_gs_money (e : Economy) :
    (growthStage e).gameState.money = e.gameState.money := by
  unfold growthStage
  dsimp only
  split
  · rfl
  · split <;> rfl

@[simp] theorem growthStage_gs_wood (e : Economy) :
    (growthStage e).gameState.wood = e.gameState.wood := by
  unfold growthStage
  dsimp only
  split
  · rfl
  · split <;> rfl

@[simp] theorem growthStage_gs_messages (e : Economy) :
    (growthStage e).gameState.messages = e.gameState.messages := by
  unfold growthStage
  dsimp only
  split
  · rfl
  · split <;> rfl

@[simp] theorem growthStage_world (e : Economy) : (growthStage e).world = e.world := by
  unfold growthStage
  dsimp only
  split
  · rfl
  · split <;> rfl

@[simp] theorem growthStage_structures (e : Economy) :
    (growthStage e).structures = e.structures := by
  unfold growthStage
  dsimp only
  split
  · rfl
  · split <;> rfl

@[simp] theorem growthStage_heap (e : Economy) : (growthStage e).heap = e.heap := by
  unfold growthStage
  dsimp only
  split
  · rfl
  · split <;> rfl

@[simp] theorem tickLumber_gs_food (e : Economy) (lum : Structure) :
    (tickLumber e lum).gameState.food = e.gameState.food := by
  unfold tickLumber
  dsimp only
  split <;> rfl

@[simp] theorem tickLumber_gs_money (e : Economy) (lum : Structure) :
    (tickLumber e lum).gameState.money = e.gameState.money := by
  unfold tickLumber
  dsimp only
  split <;> rfl

@[simp] theorem tickLumber_gs_population (e : Economy) (lum : Structure) :
    (tickLumber e lum).gameState.population = e.gameState.population := by
  unfold tickLumber
  dsimp only
  split <;> rfl

@[simp] theorem tickLumber_gs_messages (e : Economy) (lum : Structure) :
    (tickLumber e lum).gameState.messages = e.gameState.messages := by
  unfold tickLumber
  dsimp only
  split <;> rfl

@[simp] theorem tickLumber_structures (e : Economy) (lum : Structure) :
    (tickLumber e lum).structures = e.structures := by
  unfold tickLumber
  dsimp only
  split <;> rfl

@[simp] theorem tickLumber_heap (e : Economy) (lum : Structure) :
    (tickLumber e lum).heap = e.heap := by
  unfold tickLumber
  dsimp only
  split <;> rfl

theorem lumberStage_frame (e : Economy) :
    (lumberStage e).gameState.food = e.gameState.food ∧
    (lumberStage e).gameState.money = e.gameState.money ∧
    (lumberStage e).gameState.population = e.gameState.population ∧
    (lumberStage e).gameState.messages = e.gameState.messages ∧
    (lumberStage e).structures = e.structures ∧
    (lumberStage e).heap = e.heap := by
  unfold lumberStage
  refine foldl_preserve
    (fun a : Economy => a.gameState.food = e.gameState.food ∧
      a.gameState.money = e.gameState.money ∧
      a.gameState.population = e.gameState.population ∧
      a.gameState.messages = e.gameState.messages ∧
      a.structures = e.structures ∧ a.heap = e.heap)
    _ ?_ (lumberRefs e) e ⟨rfl, rfl, rfl, rfl, rfl, rfl⟩
  intro a r ha
  cases a.heap.get? r with
  | none => exact ha
  | some lum => simpa using ha

theorem tickMine_frame (e : Economy) (r : ℕ) :
    (tickMine e r).gameState.food = e.gameState.food ∧
    (tickMine e r).gameState.money = e.gameState.money ∧
    (tickMine e r).gameState.population = e.gameState.population ∧
    (tickMine e r).structures = e.structures := by
  unfold tickMine
  cases e.heap.get? r with
  | none => exact ⟨rfl, rfl, rfl, rfl⟩
  | some mine =>
    dsimp only
    split
    · split <;> exact ⟨by simp, by simp, by simp, rfl⟩
    · split
      · split <;> exact ⟨by simp, by simp, by simp, rfl⟩
      · split
        · exact ⟨rfl, rfl, rfl, rfl⟩
        · exact ⟨rfl, rfl, rfl, rfl⟩

theorem mineStage_frame (e : Economy) :
    (mineStage e).gameState.food = e.gameState.food ∧
    (mineStage e).gameState.money = e.gameState.money ∧
    (mineStage e).gameState.population = e.gameState.population ∧
    (mineStage e).structures = e.structures := by
  unfold mineStage
  refine foldl_preserve
    (fun a : Economy => a.gameState.food = e.gameState.food ∧
      a.gameState.money = e.gameState.money ∧
      a.gameState.population = e.gameState.population ∧
      a.structures = e.structures)
    _ ?_ (e.structures.map Prod.snd) e ⟨rfl, rfl, rfl, rfl⟩
  intro a r ha
  cases hr : a.heap.get? r with
  | none => exact ha
  | some s =>
    simp only
    split
    · have hm := tickMine_frame a r
      exact ⟨hm.1.trans ha.1, hm.2.1.trans ha.2.1, hm.2.2.1.trans ha.2.2.1,
        hm.2.2.2.trans ha.2.2.2⟩
    · exact ha

/-! ### Claim C5 -/

theorem consumeStage_food_eq (gs : GameState) :
    (consumeStage gs).food =
      if gs.food - gs.population * (1/2) < 0 then 0
      else gs.food - gs.population * (1/2) := by
  unfold consumeStage
  dsimp only
  by_cases h : gs.food - gs.population * (1/2) < 0
  · rw [if_pos h, if_pos h]
    split <;> simp
  · rw [if_neg h, if_neg h]

/-- The food left by a whole tick is the consumption stage's result applied
to the pre-tick food and population (no later stage touches food). -/
theorem tick_food_eq (e : Economy) :
    (tick e).gameState.food =
      if e.gameState.food - e.gameState.population * (1/2) < 0 then 0
      else e.gameState.food - e.gameState.population * (1/2) := by
  unfold tick
  dsimp only
  rw [(mineStage_frame _).1, (lumberStage_frame _).1, growthStage_gs_food]
  show (consumeStage _).food = _
  rw [consumeStage_food_eq]
  have hf := farmLoop_food e.structures e 0
  have hp := farmLoop_population e.structures e 0
  simp only
  rw [hf, hp]

/-- The spec's concrete starvation scenario: population 20 and food 5 at the
start of a tick (no structures). -/
def tickC5Example : Economy :=
  ⟨{ GameState.new with population := 20, food := 5 }, World.new 0, [], []⟩

section
attribute [local semireducible] Rat.add Rat.mul Rat.sub Rat.inv

theorem tickC5Example_result :
    (tick tickC5Example).gameState.population = 19 ∧
    (tick tickC5Example).gameState.food = 0 := by decide

end

/-- C5: in every tick, after food consumption of `population * 0.5`, a
negative food stock triggers exactly `leavers = ⌈-food/5⌉`, the population
drops by `min(leavers, population)` and food is clamped to `0`; otherwise
the consumed amount merely remains.  Food is never negative at the end of a
tick.  Concretely, population 20 and food 5 before the consumption stage
yield population 19 and food 0 at the end of the tick. -/
theorem c5_starvation_emigration (gs : GameState) (e : Economy) :
    (gs.food - gs.population * (1/2) < 0 →
      (consumeStage gs).population =
        gs.population - min ((⌈-(gs.food - gs.population * (1/2)) / 5⌉ : ℤ) : ℚ) gs.population ∧
      (consumeStage gs).food = 0) ∧
    (¬gs.food - gs.population * (1/2) < 0 →
      (consumeStage gs).population = gs.population ∧
      (consumeStage gs).food = gs.food - gs.population * (1/2)) ∧
    0 ≤ (tick e).gameState.food ∧
    (tick tickC5Example).gameState.population = 19 ∧
    (tick tickC5Example).gameState.food = 0 := by
  refine ⟨?_, ?_, ?_, tickC5Example_result.1, tickC5Example_result.2⟩
  · intro h
    unfold consumeStage
    dsimp only
    rw [if_pos h]
    constructor
    · split <;> simp
    · split <;> simp
  · intro h
    unfold consumeStage
    dsimp only
    rw [if_neg h]
    exact ⟨rfl, rfl⟩
  · rw [tick_food_eq]
    split
    · exact le_refl 0
    · linarith [not_lt.1 (by assumption : ¬e.gameState.food - e.gameState.population * (1/2) < 0)]

/-! ### Claim C8 -/

/-- Sequential tile fetch over a list of coordinates, appending results. -/
def getTileFold (w : World) (acc : List Tile) (cs : List (ℤ × ℤ)) : World × List Tile :=
  cs.foldl (fun a c =>
    let p := getTile a.1 c.1 c.2
    (p.1, a.2 ++ [p.2])) (w, acc)

/-- The row-major coordinate square scanned by `getTiles`. -/
def rowMajorSquare (cx cy : ℤ) (h : ℕ) : List (ℤ × ℤ) :=
  (offs h).flatMap (fun dy => (offs h).map (fun dx => (cx + dx, cy + dy)))

theorem foldl_flatMap {α β γ : Type} (l : List α) (f : α → List β) (g : γ → β → γ) (a : γ) :
    (l.flatMap f).foldl g a = l.foldl (fun acc x => (f x).foldl g acc) a := by
  induction l generalizing a with
  | nil => rfl
  | cons x xs ih => simp [List.foldl_append, ih]

theorem getTileFold_cons (w : World) (acc : List Tile) (c : ℤ × ℤ)
    (rest : List (ℤ × ℤ)) :
    getTileFold w acc (c :: rest) =
      getTileFold (getTile w c.1 c.2).1 (acc ++ [(getTile w c.1 c.2).2]) rest := by
  unfold getTileFold
  rw [List.foldl_cons]

theorem getTiles_eq_fold (w : World) (cx cy : ℤ) (g : ℕ) :
    getTiles w cx cy g = getTileFold w [] (rowMajorSquare cx cy (g / 2)) := by
  unfold getTiles getTileFold rowMajorSquare
  dsimp only
  rw [foldl_flatMap]
  congr 1
  funext acc dy
  rw [List.foldl_map]

theorem getTileFold_grow (cs : List (ℤ × ℤ)) (w : World) (acc : List Tile)
    {k : ℤ × ℤ} {t : Tile} (h : mfind w.tiles k = some t) :
    mfind (getTileFold w acc cs).1.tiles k = some t := by
  induction cs generalizing w acc with
  | nil => exact h
  | cons c rest ih =>
    rw [getTileFold_cons]
    exact ih _ _ (getTile_grow c.1 c.2 h)

theorem getTileFold_prefix (cs : List (ℤ × ℤ)) (w : World) (acc : List Tile) :
    ∃ out : List Tile, (getTileFold w acc cs).2 = acc ++ out ∧ out.length = cs.length := by
  induction cs generalizing w acc with
  | nil => exact ⟨[], by simp [getTileFold], rfl⟩
  | cons c rest ih =>
    rw [getTileFold_cons]
    obtain ⟨out, hout, hlen⟩ := ih (getTile w c.1 c.2).1 (acc ++ [(getTile w c.1 c.2).2])
    exact ⟨(getTile w c.1 c.2).2 :: out, by simpa [List.append_assoc] using hout,
      by simp [hlen]⟩

theorem getTileFold_length (cs : List (ℤ × ℤ)) (w : World) (acc : List Tile) :
    (getTileFold w acc cs).2.length = acc.length + cs.length := by
  obtain ⟨out, hout, hlen⟩ := getTileFold_prefix cs w acc
  simp [hout, hlen]

/-- The `i`-th fetched tile is the store's tile at the `i`-th coordinate. -/
theorem getTileFold_get (cs : List (ℤ × ℤ)) (w : World) (acc : List Tile)
    (i : ℕ) (hi : i < cs.length) :
    ∃ t, (getTileFold w acc cs).2.get? (acc.length + i) = some t ∧
      mfind (getTileFold w acc cs).1.tiles (cs.get ⟨i, hi⟩) = some t := by
  induction cs generalizing w acc i with
  | nil => exact absurd hi (by simp)
  | cons c rest ih =>
    rw [getTileFold_cons]
    cases i with
    | zero =>
      refine ⟨(getTile w c.1 c.2).2, ?_, ?_⟩
      · obtain ⟨out, hout, _⟩ :=
          getTileFold_prefix rest (getTile w c.1 c.2).1 (acc ++ [(getTile w c.1 c.2).2])
        rw [hout, List.append_assoc, Nat.add_zero,
          List.get?_append_right (le_refl _), Nat.sub_self]
        simp
      · exact getTileFold_grow rest _ _ (getTile_find_self w c.1 c.2)
    | succ i' =>
      have hi' : i' < rest.length := by simpa using hi
      obtain ⟨t, ht1, ht2⟩ := ih (getTile w c.1 c.2).1 (acc ++ [(getTile w c.1 c.2).2]) i' hi'
      refine ⟨t, ?_, ?_⟩
      · have harith : acc.length + (i' + 1) =
            (acc ++ [(getTile w c.1 c.2).2]).length + i' := by
          simp
          omega
        rw [harith]
        exact ht1
      · simpa using ht2

theorem offs_length (h : ℕ) : (offs h).length = 2 * h + 1 := by
  unfold offs
  rw [List.length_map, List.length_range]

theorem offs_get (h : ℕ) (i : ℕ) (hi : i < (offs h).length) :
    (offs h).get ⟨i, hi⟩ = (i : ℤ) - (h : ℤ) := by
  simp only [offs, List.get_eq_getElem, List.getElem_map, List.getElem_range]

theorem sum_map_const {α : Type} (l : List α) (c : ℕ) :
    (l.map (fun _ => c)).sum = l.length * c := by
  induction l with
  | nil => simp
  | cons a rest ih =>
    simp only [List.map_cons, List.sum_cons, List.length_cons, ih]
    ring

/-- Indexing a `flatMap` of equal-length blocks. -/
theorem flatMap_get_blocks {α β : Type} (l : List α) (f : α → List β) (n : ℕ)
    (hn : ∀ a, (f a).length = n) (i j : ℕ) (hi : i < l.length) (hj : j < n) :
    (l.flatMap f).get? (i * n + j) = (f (l.get ⟨i, hi⟩)).get? j := by
  induction l generalizing i with
  | nil => exact absurd hi (by simp)
  | cons a rest ih =>
    rw [List.flatMap_cons]
    cases i with
    | zero =>
      rw [List.get?_append (by rw [hn a]; omega)]
      simp
    | succ i' =>
      have hi' : i' < rest.length := by simpa using hi
      rw [List.get?_append_right (by rw [hn a]; nlinarith)]
      have harith : (i' + 1) * n + j - (f a).length = i' * n + j := by
        rw [hn a]
        ring_nf
        omega
      rw [harith]
      exact ih i' hi'

theorem rowMajorSquare_length (cx cy : ℤ) (h : ℕ) :
    (rowMajorSquare cx cy h).length = (2 * h + 1) * (2 * h + 1) := by
  unfold rowMajorSquare
  rw [List.length_flatMap]
  have hmap : List.map (List.length ∘ fun dy => (offs h).map (fun dx => (cx + dx, cy + dy)))
      (offs h) = (offs h).map (fun _ => 2 * h + 1) := by
    apply List.map_congr_left
    intro a _
    simp [Function.comp, offs_length]
  rw [hmap, sum_map_const, offs_length]

theorem rowMajorSquare_get (cx cy : ℤ) (h : ℕ) (i j : ℕ)
    (hi : i < 2 * h + 1) (hj : j < 2 * h + 1) :
    (rowMajorSquare cx cy h).get? (i * (2 * h + 1) + j) =
      some (cx - h + j, cy - h + i) := by
  unfold rowMajorSquare
  rw [flatMap_get_blocks _ _ (2 * h + 1) (fun a => by simp [offs_length])
    i j (by rw [offs_length]; exact hi) hj]
  rw [List.get?_map, List.get?_eq_get (by rw [offs_length]; exact hj)]
  rw [offs_get h j (by rw [offs_length]; exact hj)]
  rw [offs_get h i (by rw [offs_length]; exact hi)]
  simp only [Option.map_some']
  congr 1
  simp only [Prod.mk.injEq]
  constructor <;> ring

/-- C8 amended: for every odd size `2h+1`, the region query returns exactly
`(2h+1) × (2h+1)` tiles, row-major from the top-left corner: the tile at
list position `i * (2h+1) + j` is the store's tile at coordinate
`(cx - h + j, cy - h + i)`, present in the store after the call (generated
on demand when missing).  For even sizes the claim fails, see the
counterexample. -/
theorem c8_region_query_odd_sizes (w : World) (cx cy : ℤ) (h : ℕ) :
    (getTiles w cx cy (2 * h + 1)).2.length = (2 * h + 1) * (2 * h + 1) ∧
    (∀ i j : ℕ, i < 2 * h + 1 → j < 2 * h + 1 →
      ∃ t, (getTiles w cx cy (2 * h + 1)).2.get? (i * (2 * h + 1) + j) = some t ∧
        mfind (getTiles w cx cy (2 * h + 1)).1.tiles (cx - h + j, cy - h + i) = some t) := by
  have hdiv : (2 * h + 1) / 2 = h := by omega
  rw [getTiles_eq_fold, hdiv]
  constructor
  · rw [getTileFold_length, rowMajorSquare_length]
    simp
  · intro i j hi hj
    have hlt : i * (2 * h + 1) + j < (rowMajorSquare cx cy h).length := by
      rw [rowMajorSquare_length]
      nlinarith
    obtain ⟨t, ht1, ht2⟩ := getTileFold_get (rowMajorSquare cx cy h) w [] _ hlt
    refine ⟨t, by simpa using ht1, ?_⟩
    have hcoord : (rowMajorSquare cx cy h).get ⟨i * (2 * h + 1) + j, hlt⟩ =
        (cx - h + j, cy - h + i) := by
      have := rowMajorSquare_get cx cy h i j hi hj
      rw [List.get?_eq_get hlt] at this
      exact Option.some_injective _ this
    rw [hcoord] at ht2
    exact ht2

/-- The 3x3 block of cached flat tiles around the origin. -/
def c8World : World :=
  ⟨0, [((-1, -1), Tile.new (-1) (-1)), ((0, -1), Tile.new 0 (-1)), ((1, -1), Tile.new 1 (-1)),
      ((-1, 0), Tile.new (-1) 0), ((0, 0), Tile.new 0 0), ((1, 0), Tile.new 1 0),
      ((-1, 1), Tile.new (-1) 1), ((0, 1), Tile.new 0 1), ((1, 1), Tile.new 1 1)]⟩

/-- C8 counterexample: with size 2 (a positive size), `getTiles` returns 9
tiles, not `2 × 2 = 4` — `halfGrid = ⌊2/2⌋ = 1` and the loops run from `-1`
to `1` inclusive, so every even size yields the next odd square. -/
theorem c8_even_size_counterexample :
    (getTiles c8World 0 0 2).2.length = 9 ∧ (9 : ℕ) ≠ 2 * 2 := by
  constructor
  · decide
  · decide

/-! ### Claim C9 -/

theorem getStructureCost_unknown (ty : String) (h1 : ty ≠ "house") (h2 : ty ≠ "farm")
    (h3 : ty ≠ "mine") (h4 : ty ≠ "lumber") : getStructureCost ty = ⟨0, 0, 0⟩ := by
  unfold getStructureCost
  rw [if_neg h1, if_neg h2, if_neg h3, if_neg h4]

theorem getMaxAltitudeDiff_unknown (ty : String) (h1 : ty ≠ "house") (h2 : ty ≠ "farm")
    (h3 : ty ≠ "mine") (h4 : ty ≠ "lumber") : getMaxAltitudeDiff ty = 1 := by
  unfold getMaxAltitudeDiff
  rw [if_neg h1, if_neg h2, if_neg h3, if_neg h4]

theorem getDefaultStructureData_unknown (ty : String) (h1 : ty ≠ "house")
    (h2 : ty ≠ "farm") (h3 : ty ≠ "mine") (h4 : ty ≠ "lumber") :
    getDefaultStructureData ty = emptySData := by
  unfold getDefaultStructureData
  rw [if_neg h1, if_neg h2, if_neg h3, if_neg h4]

/-- C9: for every structure type outside house/farm/mine/lumber,
`buildStructure` charges `0/0/0`, applies the fallback altitude-difference
limit `1`, and succeeds on any unoccupied, non-water, non-forest tile whose
four fetched neighbors are within that limit (given the nonnegative
resources every reachable state has): a level-1 structure of the unknown
type with the empty data object is allocated, registered in the structure
map and referenced from the tile, with no resources deducted. -/
theorem c9_unknown_type_builds (e : Economy) (tile : Tile) (ty : String)
    (hty1 : ty ≠ "house") (hty2 : ty ≠ "farm") (hty3 : ty ≠ "mine") (hty4 : ty ≠ "lumber")
    (hmoney : 0 ≤ e.gameState.money) (hwood : 0 ≤ e.gameState.wood)
    (hfood : 0 ≤ e.gameState.food)
    (hwater : ¬tile.altitude < 0) (hforest : tile.isForest = false)
    (hocc : tile.structure' = none)
    (hn1 : |(getTile e.world (tile.x - 1) tile.y).2.altitude - tile.altitude| ≤ 1)
    (hn2 : |(getTile (getTile e.world (tile.x - 1) tile.y).1 (tile.x + 1) tile.y).2.altitude - tile.altitude| ≤ 1)
    (hn3 : |(getTile (getTile (getTile e.world (tile.x - 1) tile.y).1 (tile.x + 1) tile.y).1 tile.x (tile.y - 1)).2.altitude - tile.altitude| ≤ 1)
    (hn4 : |(getTile (getTile (getTile (getTile e.world (tile.x - 1) tile.y).1 (tile.x + 1) tile.y).1 tile.x (tile.y - 1)).1 tile.x (tile.y + 1)).2.altitude - tile.altitude| ≤ 1) :
    getStructureCost ty = ⟨0, 0, 0⟩ ∧
    getMaxAltitudeDiff ty = 1 ∧
    getDefaultStructureData ty = emptySData ∧
    (buildStructure e tile ty).2 =
      ⟨true, none, some ⟨ty, tile.x, tile.y, 1, emptySData⟩⟩ ∧
    (buildStructure e tile ty).1.gameState.money = e.gameState.money ∧
    (buildStructure e tile ty).1.gameState.wood = e.gameState.wood ∧
    (buildStructure e tile ty).1.gameState.food = e.gameState.food ∧
    mfind (buildStructure e tile ty).1.structures (tile.x, tile.y) = some e.heap.length ∧
    (buildStructure e tile ty).1.heap.get? e.heap.length =
      some ⟨ty, tile.x, tile.y, 1, emptySData⟩ ∧
    (∃ t, mfind (buildStructure e tile ty).1.world.tiles (tile.x, tile.y) = some t ∧
      t.structure' = some e.heap.length) := by
  have hc := getStructureCost_unknown ty hty1 hty2 hty3 hty4
  have hmax := getMaxAltitudeDiff_unknown ty hty1 hty2 hty3 hty4
  have hdata := getDefaultStructureData_unknown ty hty1 hty2 hty3 hty4
  have hcb : canBuildStructure e.world tile ty =
      ((getTile (getTile (getTile (getTile e.world (tile.x - 1) tile.y).1 (tile.x + 1) tile.y).1 tile.x (tile.y - 1)).1 tile.x (tile.y + 1)).1,
        ⟨true, none⟩) := by
    unfold canBuildStructure
    rw [if_neg hwater, if_neg (by simp [hforest])]
    dsimp only
    rw [hmax]
    rw [if_neg ?hsteep]
    case hsteep =>
      push_neg
      exact ⟨hn1, hn2, hn3, hn4⟩
  have hb : buildStructure e tile ty =
      ({ gameState := addMessage
            { e.gameState with
              money := e.gameState.money - 0,
              wood := e.gameState.wood - 0,
              food := e.gameState.food - 0 }
            ("Built " ++ ty ++ " at (" ++ toString tile.x ++ ", " ++ toString tile.y ++ ")")
            "success",
          world := { (canBuildStructure e.world tile ty).1 with
            tiles := mset (canBuildStructure e.world tile ty).1.tiles (tile.x, tile.y)
              { tile with structure' := some e.heap.length } },
          structures := mset e.structures (tile.x, tile.y) e.heap.length,
          heap := e.heap ++ [⟨ty, tile.x, tile.y, 1, emptySData⟩] },
        ⟨true, none, some ⟨ty, tile.x, tile.y, 1, emptySData⟩⟩) := by
    unfold buildStructure
    rw [hc]
    rw [if_neg (not_lt.2 hmoney), if_neg (not_lt.2 hwood), if_neg (not_lt.2 hfood)]
    dsimp only
    rw [if_neg (by rw [hcb]; simp)]
    rw [if_neg (by rw [hocc]; simp)]
    rw [hdata]
  refine ⟨hc, hmax, hdata, ?_, ?_, ?_, ?_, ?_, ?_, ?_⟩
  · rw [hb]
  · rw [hb]
    simp
  · rw [hb]
    simp
  · rw [hb]
    simp
  · rw [hb]
    exact mfind_mset_self _ _ _
  · rw [hb]
    exact List.get?_concat_length _ _
  · rw [hb]
    exact ⟨{ tile with structure' := some e.heap.length }, mfind_mset_self _ _ _, rfl⟩

/-! ### Claim C10 -/

/-- The forest invariant: every forested tile in the store has positive
forest health. -/
def forestInv (w : World) : Prop :=
  ∀ k t, mfind w.tiles k = some t → t.isForest = true → t.forestHealth > 0

theorem generateForest_health (seed : ℤ) (perm : List ℕ) (x y alt : ℤ) :
    ((generateForest seed perm x y alt).1 = true →
      70 ≤ (generateForest seed perm x y alt).2 ∧
      (generateForest seed perm x y alt).2 ≤ 100) ∧
    ((generateForest seed perm x y alt).1 = false →
      (generateForest seed perm x y alt).2 = 0) := by
  unfold generateForest
  dsimp only
  by_cases hland : alt > -3
  · rw [if_pos hland]
    by_cases hcond : noise perm ((x : ℚ) * (5/100)) ((y : ℚ) * (5/100)) > 3/10 ∧
        (rngNext (forestSeed seed x y)).1 > 6/10
    · rw [if_pos hcond]
      dsimp only
      have hb := rngNextInt_mem (rngNext (forestSeed seed x y)).2
        (by norm_num : (70 : ℤ) ≤ 100)
      exact ⟨fun _ => ⟨by exact_mod_cast hb.1, by exact_mod_cast hb.2⟩, by simp⟩
    · rw [if_neg hcond]
      exact ⟨by simp, fun _ => rfl⟩
  · rw [if_neg hland]
    exact ⟨by simp, fun _ => rfl⟩

theorem genTile_forest_fields (seed : ℤ) (perm : List ℕ) (x y : ℤ) :
    (genTile seed perm x y).isForest =
      (generateForest seed perm x y (genTile seed perm x y).altitude).1 ∧
    (genTile seed perm x y).forestHealth =
      (generateForest seed perm x y (genTile seed perm x y).altitude).2 := ⟨rfl, rfl⟩

theorem genTile_forestInv (seed : ℤ) (perm : List ℕ) (x y : ℤ) :
    (genTile seed perm x y).isForest = true → (genTile seed perm x y).forestHealth > 0 := by
  intro h
  obtain ⟨h1, h2⟩ := genTile_forest_fields seed perm x y
  rw [h2]
  have := (generateForest_health seed perm x y (genTile seed perm x y).altitude).1
    (by rw [← h1]; exact h)
  linarith [this.1]

theorem getTile_forestInv {w : World} (hw : forestInv w) (x y : ℤ) :
    forestInv (getTile w x y).1 ∧
    ((getTile w x y).2.isForest = true → (getTile w x y).2.forestHealth > 0) := by
  unfold getTile
  cases hf : mfind w.tiles (x, y) with
  | some t =>
    exact ⟨hw, fun h => hw (x, y) t hf h⟩
  | none =>
    dsimp only
    constructor
    · intro k t hk ht
      rw [mfind_mset] at hk
      by_cases hke : (x, y) = k
      · rw [if_pos hke] at hk
        cases hk
        exact genTile_forestInv _ _ _ _ ht
      · rw [if_neg hke] at hk
        exact hw k t hk ht
    · exact genTile_forestInv _ _ _ _

theorem destroyStructure_forestInv {e : Economy} (hw : forestInv e.world) (x y : ℤ) :
    forestInv (destroyStructure e x y).world := by
  unfold destroyStructure
  cases hm : mfind e.structures (x, y) with
  | none => exact hw
  | some r =>
    dsimp only
    intro k t hk ht
    rw [mfind_mset] at hk
    by_cases hke : (x, y) = k
    · rw [if_pos hke] at hk
      cases hk
      exact (getTile_forestInv hw x y).2 ht
    · rw [if_neg hke] at hk
      exact (getTile_forestInv hw x y).1 k t hk ht

theorem farmLoop_forestInv : ∀ (l : List ((ℤ × ℤ) × ℕ)) (e : Economy) (inc : ℚ),
    forestInv e.world → forestInv (farmLoop l e inc).1.world := by
  intro l
  induction l with
  | nil => intro e inc hw; exact hw
  | cons hd tl ih =>
    intro e inc hw
    obtain ⟨k, r⟩ := hd
    simp only [farmLoop]
    by_cases hg : mfind e.structures k = some r
    · rw [if_pos hg]
      cases hr : e.heap.get? r with
      | none => exact ih e inc hw
      | some s =>
        simp only
        by_cases hf : s.type = "farm"
        · rw [if_pos hf]
          by_cases hnet : (10 : ℚ) - 10 * e.gameState.incomeTaxRate ≤ 0
          · rw [if_pos hnet]
            exact ih _ _ (destroyStructure_forestInv hw s.x s.y)
          · rw [if_neg hnet]
            exact ih _ _ hw
        · rw [if_neg hf]
          exact ih e inc hw
    · rw [if_neg hg]
      exact ih e inc hw

theorem damageRow_forestInv (lx ly dx : ℤ) :
    ∀ (rest : List ℤ) (w : World), forestInv w → forestInv (damageRow lx ly dx w rest) := by
  intro rest
  induction rest with
  | nil => intro w hw; exact hw
  | cons dy tl ih =>
    intro w hw
    simp only [damageRow]
    by_cases hlive : (getTile w (lx + dx) (ly + dy)).2.isForest = true ∧
        (getTile w (lx + dx) (ly + dy)).2.forestHealth > 0
    · rw [if_pos hlive]
      by_cases hdead : (getTile w (lx + dx) (ly + dy)).2.forestHealth - 1/10 ≤ 0
      · rw [if_pos hdead]
        intro k t hk ht
        rw [mfind_mset] at hk
        by_cases hke : (lx + dx, ly + dy) = k
        · rw [if_pos hke] at hk
          cases hk
          simp at ht
        · rw [if_neg hke] at hk
          exact (getTile_forestInv hw (lx + dx) (ly + dy)).1 k t hk ht
      · rw [if_neg hdead]
        apply ih
        intro k t hk ht
        rw [mfind_mset] at hk
        by_cases hke : (lx + dx, ly + dy) = k
        · rw [if_pos hke] at hk
          cases hk
          simp only
          linarith [not_le.1 hdead]
        · rw [if_neg hke] at hk
          exact (getTile_forestInv hw (lx + dx) (ly + dy)).1 k t hk ht
    · rw [if_neg hlive]
      exact ih _ (getTile_forestInv hw (lx + dx) (ly + dy)).1

theorem countForests_forestInv {w : World} (hw : forestInv w) (lx ly : ℤ) :
    forestInv (countForests w lx ly).1 := by
  unfold countForests
  refine foldl_preserve (fun a : World × ℕ => forestInv a.1) _ ?_ (offs 8) (w, 0) hw
  intro a dx ha
  refine foldl_preserve (fun a : World × ℕ => forestInv a.1) _ ?_ (offs 8) a ha
  intro b dy hb
  exact (getTile_forestInv hb _ _).1

theorem tickLumber_forestInv {e : Economy} (hw : forestInv e.world) (lum : Structure) :
    forestInv (tickLumber e lum).world := by
  have hinv := countForests_forestInv hw lum.x lum.y
  unfold tickLumber
  dsimp only
  generalize hg : countForests e.world lum.x lum.y = cf
  rw [hg] at hinv
  by_cases hcf : cf.2 > 0
  · rw [if_pos hcf]
    dsimp only
    refine foldl_preserve (fun w : World => forestInv w) _ ?_ (offs 8) cf.1 hinv
    intro a dx ha
    exact damageRow_forestInv lum.x lum.y dx (offs 8) a ha
  · rw [if_neg hcf]
    dsimp only
    exact hinv

theorem lumberStage_forestInv {e : Economy} (hw : forestInv e.world) :
    forestInv (lumberStage e).world := by
  unfold lumberStage
  refine foldl_preserve (fun a : Economy => forestInv a.world) _ ?_ (lumberRefs e) e hw
  intro a r ha
  cases a.heap.get? r with
  | none => exact ha
  | some lum => exact tickLumber_forestInv ha lum

theorem scanResources_forestInv {w : World} (hw : forestInv w) (mx my : ℤ) :
    forestInv (scanResources w mx my).1 := by
  unfold scanResources
  refine foldl_preserve (fun a : World × Resources => forestInv a.1) _ ?_ (offs 4)
    (w, ⟨0, 0, 0⟩) hw
  intro a dx ha
  refine foldl_preserve (fun a : World × Resources => forestInv a.1) _ ?_ (offs 4) a ha
  intro b dy hb
  exact (getTile_forestInv hb _ _).1

theorem tickMine_forestInv {e : Economy} (hw : forestInv e.world) (r : ℕ) :
    forestInv (tickMine e r).world := by
  unfold tickMine
  cases e.heap.get? r with
  | none => exact hw
  | some mine =>
    dsimp only
    have hsc := scanResources_forestInv hw mine.x mine.y
    generalize hg : scanResources e.world mine.x mine.y = sc
    rw [hg] at hsc
    by_cases h1 : mine.data.resourceLevel = some "stone" ∧ sc.2.stone > 0
    · rw [if_pos h1]
      by_cases hu : optGe (optAdd mine.data.extractedStone (min 1 sc.2.stone)) 100 = true
      · rw [if_pos hu]
        dsimp only
        exact hsc
      · rw [if_neg hu]
        dsimp only
        exact hsc
    · rw [if_neg h1]
      by_cases h2 : mine.data.resourceLevel = some "iron" ∧ sc.2.iron > 0
      · rw [if_pos h2]
        by_cases hu : optGe (optAdd mine.data.extractedStone (min (1/2) sc.2.iron)) 100 = true
        · rw [if_pos hu]
          dsimp only
          exact hsc
        · rw [if_neg hu]
          dsimp only
          exact hsc
      · rw [if_neg h2]
        by_cases h3 : mine.data.resourceLevel = some "uranium" ∧ sc.2.uranium > 0
        · rw [if_pos h3]
          dsimp only
          exact hsc
        · rw [if_neg h3]
          dsimp only
          exact hsc

theorem mineStage_forestInv {e : Economy} (hw : forestInv e.world) :
    forestInv (mineStage e).world := by
  unfold mineStage
  refine foldl_preserve (fun a : Economy => forestInv a.world) _ ?_
    (e.structures.map Prod.snd) e hw
  intro a r ha
  cases a.heap.get? r with
  | none => exact ha
  | some s =>
    simp only
    split
    · exact tickMine_forestInv ha r
    · exact ha

/-! ### Claim C7 -/

/-- The game-state scalars other than wood (which mining may increase). -/
def gsExceptWood (gs : GameState) : ℚ × ℚ × ℚ × ℚ × ℚ × ℤ :=
  (gs.money, gs.food, gs.population, gs.employed, gs.incomeTaxRate, gs.time)

theorem scanResources_grow {w : World} {k : ℤ × ℤ} {t : Tile}
    (h : mfind w.tiles k = some t) (mx my : ℤ) :
    mfind (scanResources w mx my).1.tiles k = some t := by
  unfold scanResources
  refine foldl_preserve (fun a : World × Resources => mfind a.1.tiles k = some t)
    _ ?_ (offs 4) (w, ⟨0, 0, 0⟩) h
  intro a dx ha
  refine foldl_preserve (fun a : World × Resources => mfind a.1.tiles k = some t)
    _ ?_ (offs 4) a ha
  intro b dy hb
  exact getTile_grow _ _ hb

/-- The combined frame effects of one mine tick: existing tiles preserved
exactly, scalars other than wood preserved, structures untouched, heap
changed at most at the mine's own reference. -/
theorem tickMine_effects (e : Economy) (r : ℕ) :
    (∀ k t, mfind e.world.tiles k = some t →
      mfind (tickMine e r).world.tiles k = some t) ∧
    gsExceptWood (tickMine e r).gameState = gsExceptWood e.gameState ∧
    (tickMine e r).structures = e.structures ∧
    (∀ r', r' ≠ r → (tickMine e r).heap.get? r' = e.heap.get? r') := by
  unfold tickMine
  cases e.heap.get? r with
  | none => exact ⟨fun k t h => h, rfl, rfl, fun _ _ => rfl⟩
  | some mine =>
    dsimp only
    have hsets : ∀ (s : Structure) (r' : ℕ), r' ≠ r →
        (e.heap.set r s).get? r' = e.heap.get? r' := by
      intro s r' hne
      rw [List.get?_eq_getElem?, List.get?_eq_getElem?]
      exact List.getElem?_set_ne (fun hh => hne hh.symm)
    generalize hg : scanResources e.world mine.x mine.y = sc
    have hgrow : ∀ k t, mfind e.world.tiles k = some t →
        mfind sc.1.tiles k = some t := by
      intro k t h
      rw [← hg]
      exact scanResources_grow h mine.x mine.y
    by_cases h1 : mine.data.resourceLevel = some "stone" ∧ sc.2.stone > 0
    · rw [if_pos h1]
      by_cases hu : optGe (optAdd mine.data.extractedStone (min 1 sc.2.stone)) 100 = true
      · rw [if_pos hu]
        exact ⟨hgrow, by simp [gsExceptWood], rfl, hsets _⟩
      · rw [if_neg hu]
        exact ⟨hgrow, by simp [gsExceptWood], rfl, hsets _⟩
    · rw [if_neg h1]
      by_cases h2 : mine.data.resourceLevel = some "iron" ∧ sc.2.iron > 0
      · rw [if_pos h2]
        by_cases hu : optGe (optAdd mine.data.extractedStone (min (1/2) sc.2.iron)) 100 = true
        · rw [if_pos hu]
          exact ⟨hgrow, by simp [gsExceptWood], rfl, hsets _⟩
        · rw [if_neg hu]
          exact ⟨hgrow, by simp [gsExceptWood], rfl, hsets _⟩
      · rw [if_neg h2]
        by_cases h3 : mine.data.resourceLevel = some "uranium" ∧ sc.2.uranium > 0
        · rw [if_pos h3]
          exact ⟨hgrow, by simp [gsExceptWood], rfl, fun _ _ => rfl⟩
        · rw [if_neg h3]
          exact ⟨hgrow, rfl, rfl, fun _ _ => rfl⟩

/-- C7 amended: a mine's tick step never changes any existing tile — in
particular the stone/iron/uranium quantities of every tile of the 9x9 scan
square and of every other cached tile are identical before and after (the
scan may only add freshly generated tiles to the store).  The scalar game
state other than wood, and the structure map, are untouched, and no heap
entry other than the mine's own may change.  The claim's clause that *only*
wood and the mine's data may change is too strong: on an upgrade tick the
message log changes as well (see the counterexample). -/
theorem c7_mine_preserves_tiles (e : Economy) (r : ℕ) :
    (∀ k t, mfind e.world.tiles k = some t →
      mfind (tickMine e r).world.tiles k = some t) ∧
    (tickMine e r).gameState.food = e.gameState.food ∧
    (tickMine e r).gameState.money = e.gameState.money ∧
    (tickMine e r).gameState.population = e.gameState.population ∧
    (tickMine e r).gameState.employed = e.gameState.employed ∧
    (tickMine e r).gameState.incomeTaxRate = e.gameState.incomeTaxRate ∧
    (tickMine e r).gameState.time = e.gameState.time ∧
    (tickMine e r).structures = e.structures ∧
    (∀ r', r' ≠ r → (tickMine e r).heap.get? r' = e.heap.get? r') := by
  obtain ⟨h1, h2, h3, h4⟩ := tickMine_effects e r
  refine ⟨h1, ?_, ?_, ?_, ?_, ?_, ?_, h3, h4⟩
  · exact congrArg (fun p => p.2.1) h2
  · exact congrArg (fun p => p.1) h2
  · exact congrArg (fun p => p.2.2.1) h2
  · exact congrArg (fun p => p.2.2.2.1) h2
  · exact congrArg (fun p => p.2.2.2.2.1) h2
  · exact congrArg (fun p => p.2.2.2.2.2) h2

/-! ### Structure back-reference preservation by the later tick stages -/

/-- Between two stores: every tile survives (possibly with changed forest
fields) and keeps its structure back-reference. -/
def tileKeepsStruct (w w' : World) : Prop :=
  ∀ k t, mfind w.tiles k = some t →
    ∃ t', mfind w'.tiles k = some t' ∧ t'.structure' = t.structure'

theorem tileKeepsStruct_refl (w : World) : tileKeepsStruct w w :=
  fun k t h => ⟨t, h, rfl⟩

theorem tileKeepsStruct_trans {w1 w2 w3 : World} (h12 : tileKeepsStruct w1 w2)
    (h23 : tileKeepsStruct w2 w3) : tileKeepsStruct w1 w3 := by
  intro k t h
  obtain ⟨t2, h2, hs2⟩ := h12 k t h
  obtain ⟨t3, h3, hs3⟩ := h23 k t2 h2
  exact ⟨t3, h3, hs3.trans hs2⟩

theorem getTile_keepsStruct (w : World) (x y : ℤ) :
    tileKeepsStruct w (getTile w x y).1 :=
  fun k t h => ⟨t, getTile_grow x y h, rfl⟩

theorem damageRow_keepsStruct (lx ly dx : ℤ) :
    ∀ (rest : List ℤ) (w : World), tileKeepsStruct w (damageRow lx ly dx w rest) := by
  intro rest
  induction rest with
  | nil => intro w; exact tileKeepsStruct_refl w
  | cons dy tl ih =>
    intro w
    simp only [damageRow]
    by_cases hlive : (getTile w (lx + dx) (ly + dy)).2.isForest = true ∧
        (getTile w (lx + dx) (ly + dy)).2.forestHealth > 0
    · rw [if_pos hlive]
      by_cases hdead : (getTile w (lx + dx) (ly + dy)).2.forestHealth - 1/10 ≤ 0
      · rw [if_pos hdead]
        intro k t h
        by_cases hke : (lx + dx, ly + dy) = k
        · subst hke
          refine ⟨_, mfind_mset_self _ _ _, ?_⟩
          have := (getTile_keepsStruct w (lx + dx) (ly + dy)) _ t h
          obtain ⟨t2, h2, hs2⟩ := this
          rw [getTile_find_self] at h2
          cases h2
          exact hs2
        · exact ⟨t, by rw [mfind_mset_ne _ _ hke]; exact getTile_grow _ _ h, rfl⟩
      · rw [if_neg hdead]
        have hmid : tileKeepsStruct w { (getTile w (lx + dx) (ly + dy)).1 with
            tiles := mset (getTile w (lx + dx) (ly + dy)).1.tiles (lx + dx, ly + dy)
              { (getTile w (lx + dx) (ly + dy)).2 with
                forestHealth := (getTile w (lx + dx) (ly + dy)).2.forestHealth - 1/10 } } := by
          intro k t h
          by_cases hke : (lx + dx, ly + dy) = k
          · subst hke
            refine ⟨_, mfind_mset_self _ _ _, ?_⟩
            have := (getTile_keepsStruct w (lx + dx) (ly + dy)) _ t h
            obtain ⟨t2, h2, hs2⟩ := this
            rw [getTile_find_self] at h2
            cases h2
            exact hs2
          · exact ⟨t, by rw [mfind_mset_ne _ _ hke]; exact getTile_grow _ _ h, rfl⟩
        exact tileKeepsStruct_trans hmid (ih _)
    · rw [if_neg hlive]
      exact tileKeepsStruct_trans (getTile_keepsStruct w (lx + dx) (ly + dy)) (ih _)

theorem countForests_keepsStruct (w : World) (lx ly : ℤ) :
    tileKeepsStruct w (countForests w lx ly).1 := by
  unfold countForests
  refine foldl_preserve (fun a : World × ℕ => tileKeepsStruct w a.1) _ ?_ (offs 8)
    (w, 0) (tileKeepsStruct_refl w)
  intro a dx ha
  refine foldl_preserve (fun a : World × ℕ => tileKeepsStruct w a.1) _ ?_ (offs 8) a ha
  intro b dy hb
  exact tileKeepsStruct_trans hb (getTile_keepsStruct _ _ _)

theorem tickLumber_keepsStruct (e : Economy) (lum : Structure) :
    tileKeepsStruct e.world (tickLumber e lum).world := by
  have hcf := countForests_keepsStruct e.world lum.x lum.y
  unfold tickLumber
  dsimp only
  generalize hg : countForests e.world lum.x lum.y = cf
  rw [hg] at hcf
  by_cases hc : cf.2 > 0
  · rw [if_pos hc]
    dsimp only
    refine tileKeepsStruct_trans hcf ?_
    refine foldl_preserve (fun w : World => tileKeepsStruct cf.1 w) _ ?_ (offs 8) cf.1
      (tileKeepsStruct_refl cf.1)
    intro a dx ha
    exact tileKeepsStruct_trans ha (damageRow_keepsStruct lum.x lum.y dx (offs 8) a)
  · rw [if_neg hc]
    dsimp only
    exact hcf

theorem lumberStage_keepsStruct (e : Economy) :
    tileKeepsStruct e.world (lumberStage e).world := by
  unfold lumberStage
  refine foldl_preserve (fun a : Economy => tileKeepsStruct e.world a.world) _ ?_
    (lumberRefs e) e (tileKeepsStruct_refl e.world)
  intro a r ha
  cases a.heap.get? r with
  | none => exact ha
  | some lum => exact tileKeepsStruct_trans ha (tickLumber_keepsStruct a lum)

theorem mineStage_keepsStruct (e : Economy) :
    tileKeepsStruct e.world (mineStage e).world := by
  unfold mineStage
  refine foldl_preserve (fun a : Economy => tileKeepsStruct e.world a.world) _ ?_
    (e.structures.map Prod.snd) e (tileKeepsStruct_refl e.world)
  intro a r ha
  cases a.heap.get? r with
  | none => exact ha
  | some s =>
    simp only
    split
    · refine tileKeepsStruct_trans ha ?_
      intro k t h
      exact ⟨t, (tickMine_effects a r).1 k t h, rfl⟩
    · exact ha

/-- The later stages of the tick leave non-mine heap entries untouched. -/
theorem mineStage_heap_preserve :
    ∀ (rs : List ℕ) (e : Economy) (r : ℕ) (s : Structure),
      e.heap.get? r = some s → s.type ≠ "mine" →
      ((rs.foldl (fun e' r' =>
        match e'.heap.get? r' with
        | some s' => if s'.type = "mine" then tickMine e' r' else e'
        | none => e') e).heap.get? r = some s) := by
  intro rs
  induction rs with
  | nil => intro e r s hr _; exact hr
  | cons r0 tl ih =>
    intro e r s hr hty
    rw [List.foldl_cons]
    cases h0 : e.heap.get? r0 with
    | none => exact ih e r s hr hty
    | some s0 =>
      simp only
      by_cases hm : s0.type = "mine"
      · rw [if_pos hm]
        refine ih _ r s ?_ hty
        by_cases hrr : r = r0
        · subst hrr
          rw [hr] at h0
          cases h0
          exact absurd hm hty
        · rw [(tickMine_effects e r0).2.2.2 r hrr]
          exact hr
      · rw [if_neg hm]
        exact ih e r s hr hty

/-- Membership in a key-unique map determines the lookup. -/
theorem mfind_of_mem_nodup {β : Type} {m : List ((ℤ × ℤ) × β)} {k : ℤ × ℤ} {v : β}
    (hnd : keysNodup m) (hm : (k, v) ∈ m) : mfind m k = some v := by
  induction m with
  | nil => simp at hm
  | cons hd tl ih =>
    obtain ⟨k0, v0⟩ := hd
    simp only [keysNodup, List.map_cons, List.nodup_cons] at hnd
    rcases List.mem_cons.1 hm with heq | htl
    · cases heq
      simp [mfind]
    · have hk : k0 ≠ k := by
        intro hh
        subst hh
        exact hnd.1 (List.mem_map.2 ⟨(k0, v), htl, rfl⟩)
      simp only [mfind, if_neg hk]
      exact ih hnd.2 htl

/-! ### Claim C6: the farm stage -/

/-- Coordinate well-formedness of the live objects: every mapped structure
object records the key it is mapped under. -/
def wfCoords (e : Economy) : Prop :=
  ∀ k r s, mfind e.structures k = some r → e.heap.get? r = some s → (s.x, s.y) = k

/-- Behaviour of the farm loop when the net income `10 - 10·taxRate` is not
positive: no income accrues, the heap is untouched, keys absent from the map
stay absent with their tiles untouched, and every farm entry of the snapshot
is destroyed — removed from the map with its tile's back-reference
cleared. -/
theorem farmLoop_bankrupt : ∀ (l : List ((ℤ × ℤ) × ℕ)) (e : Economy) (inc : ℚ),
    10 - 10 * e.gameState.incomeTaxRate ≤ 0 →
    keysNodup e.structures →
    wfCoords e →
    (farmLoop l e inc).2 = inc ∧
    (farmLoop l e inc).1.heap = e.heap ∧
    (∀ k, mfind e.structures k = none → mfind (farmLoop l e inc).1.structures k = none) ∧
    (∀ k t, mfind e.structures k = none → mfind e.world.tiles k = some t →
      mfind (farmLoop l e inc).1.world.tiles k = some t) ∧
    (∀ k r s, (k, r) ∈ l → mfind e.structures k = some r → e.heap.get? r = some s →
      s.type = "farm" →
      mfind (farmLoop l e inc).1.structures k = none ∧
      (∃ t, mfind (farmLoop l e inc).1.world.tiles k = some t ∧ t.structure' = none)) := by
  intro l
  induction l with
  | nil =>
    intro e inc _ _ _
    exact ⟨rfl, rfl, fun k h => h, fun k t _ h => h, by simp⟩
  | cons hd tl ih =>
    intro e inc htax hnd hwf
    obtain ⟨k0, r0⟩ := hd
    simp only [farmLoop]
    by_cases hg : mfind e.structures k0 = some r0
    · rw [if_pos hg]
      cases hr : e.heap.get? r0 with
      | none =>
        obtain ⟨c1, c2, c3, c4, c5⟩ := ih e inc htax hnd hwf
        refine ⟨c1, c2, c3, c4, ?_⟩
        intro k r s hmem hfind hheap hty
        rcases List.mem_cons.1 hmem with heq | htl
        · cases heq
          rw [hfind] at hg
          cases hg
          rw [hheap] at hr
          cases hr
        · exact c5 k r s htl hfind hheap hty
      | some s0 =>
        simp only
        by_cases hf : s0.type = "farm"
        · rw [if_pos hf]
          rw [if_pos htax]
          have hcoords : (s0.x, s0.y) = k0 := hwf k0 r0 s0 hg hr
          -- the state after destroying the bankrupt head farm
          have hkey : mfind (destroyStructure e s0.x s0.y).structures k0 = none := by
            unfold destroyStructure
            rw [hcoords, hg]
            dsimp only
            exact mfind_merase_self _ _ hnd
          have htile : ∃ t, mfind (destroyStructure e s0.x s0.y).world.tiles k0 = some t ∧
              t.structure' = none := by
            unfold destroyStructure
            rw [hcoords, hg]
            dsimp only
            exact ⟨_, mfind_mset_self _ _ _, rfl⟩
          have hmap_ne : ∀ k, k ≠ k0 →
              mfind (destroyStructure e s0.x s0.y).structures k = mfind e.structures k := by
            intro k hk
            unfold destroyStructure
            rw [hcoords, hg]
            dsimp only
            exact mfind_merase_ne _ (fun hh => hk hh.symm)
          have htile_ne : ∀ k t, k ≠ k0 → mfind e.world.tiles k = some t →
              mfind (destroyStructure e s0.x s0.y).world.tiles k = some t := by
            intro k t hk ht
            unfold destroyStructure
            rw [hcoords, hg]
            dsimp only
            rw [mfind_mset_ne _ _ (fun hh => hk hh.symm)]
            exact getTile_grow _ _ ht
          have hheap' : (destroyStructure e s0.x s0.y).heap = e.heap :=
            destroyStructure_heap e s0.x s0.y
          set e1 := { destroyStructure e s0.x s0.y with
            gameState := addMessage (destroyStructure e s0.x s0.y).gameState
              "Farm went bankrupt due to high taxes" "error" } with he1
          have htax1 : 10 - 10 * e1.gameState.incomeTaxRate ≤ 0 := by
            simpa [he1] using htax
          have hnd1 : keysNodup e1.structures := by
            show keysNodup (destroyStructure e s0.x s0.y).structures
            unfold destroyStructure
            rw [hcoords, hg]
            dsimp only
            exact keysNodup_merase _ _ hnd
          have hwf1 : wfCoords e1 := by
            intro k r s hfind hheap
            by_cases hk : k = k0
            · subst hk
              rw [hkey] at hfind
              cases hfind
            · rw [show e1.structures = (destroyStructure e s0.x s0.y).structures from rfl,
                hmap_ne k hk] at hfind
              exact hwf k r s hfind (by rwa [show e1.heap = e.heap from hheap'] at hheap)
          obtain ⟨c1, c2, c3, c4, c5⟩ := ih e1 inc htax1 hnd1 hwf1
          have he1heap : e1.heap = e.heap := hheap'
          refine ⟨c1, c2.trans he1heap, ?_, ?_, ?_⟩
          · intro k hk
            by_cases hkk : k = k0
            · subst hkk
              exact c3 k hkey
            · exact c3 k (by rw [show e1.structures = _ from rfl, hmap_ne k hkk]; exact hk)
          · intro k t hk ht
            have hkk : k ≠ k0 := fun hh => by rw [hh, hg] at hk; cases hk
            exact c4 k t
              (by rw [show e1.structures = _ from rfl, hmap_ne k hkk]; exact hk)
              (htile_ne k t hkk ht)
          · intro k r s hmem hfind hheap hty
            by_cases hkk : k = k0
            · subst hkk
              obtain ⟨t, ht1, ht2⟩ := htile
              exact ⟨c3 k hkey, ⟨t, c4 k t hkey ht1, ht2⟩⟩
            · rcases List.mem_cons.1 hmem with heq | htl
              · cases heq
                exact absurd rfl hkk
              · exact c5 k r s htl
                  (by rw [show e1.structures = _ from rfl, hmap_ne k hkk]; exact hfind)
                  (by rw [he1heap]; exact hheap) hty
        · rw [if_neg hf]
          obtain ⟨c1, c2, c3, c4, c5⟩ := ih e inc htax hnd hwf
          refine ⟨c1, c2, c3, c4, ?_⟩
          intro k r s hmem hfind hheap hty
          rcases List.mem_cons.1 hmem with heq | htl
          · cases heq
            rw [hfind] at hg
            cases hg
            rw [hheap] at hr
            cases hr
            exact absurd hty hf
          · exact c5 k r s htl hfind hheap hty
    · rw [if_neg hg]
      obtain ⟨c1, c2, c3, c4, c5⟩ := ih e inc htax hnd hwf
      refine ⟨c1, c2, c3, c4, ?_⟩
      intro k r s hmem hfind hheap hty
      rcases List.mem_cons.1 hmem with heq | htl
      · cases heq
        exact absurd hfind hg
      · exact c5 k r s htl hfind hheap hty

/-- The number of entries of a snapshot whose heap object is a farm. -/
def countFarmEntries (h : Heap) (l : List ((ℤ × ℤ) × ℕ)) : ℕ :=
  (l.filter (fun kv =>
    match h.get? kv.2 with
    | some s => s.type == "farm"
    | none => false)).length

/-- Behaviour of the farm loop when the net income `10 - 10·taxRate` is
positive: no structure is destroyed, the world and map are untouched, the
income of every farm entry accrues, and every farm entry's heap object gets
its `foodPerTick` recomputed to `1 + 0.5·(level - 1)`; heap entries outside
the snapshot's references are untouched. -/
theorem farmLoop_alive : ∀ (l : List ((ℤ × ℤ) × ℕ)) (e : Economy) (inc : ℚ),
    0 < 10 - 10 * e.gameState.incomeTaxRate →
    (∀ kv, kv ∈ l → mfind e.structures kv.1 = some kv.2) →
    (l.map Prod.fst).Nodup →
    wfCoords e →
    (farmLoop l e inc).1.structures = e.structures ∧
    (farmLoop l e inc).1.world = e.world ∧
    (farmLoop l e inc).2 =
      inc + (countFarmEntries e.heap l : ℚ) * (10 - 10 * e.gameState.incomeTaxRate) ∧
    (∀ r', r' ∉ l.map Prod.snd → (farmLoop l e inc).1.heap.get? r' = e.heap.get? r') ∧
    (∀ kv s, kv ∈ l → e.heap.get? kv.2 = some s → s.type = "farm" →
      (farmLoop l e inc).1.heap.get? kv.2 =
        some { s with data :=
          { s.data with foodPerTick := some (1 + (1/2) * ((s.level : ℚ) - 1)) } }) := by
  intro l
  induction l with
  | nil =>
    intro e inc _ _ _ _
    refine ⟨rfl, rfl, ?_, fun r' _ => rfl, by simp⟩
    simp [farmLoop, countFarmEntries]
  | cons hd tl ih =>
    intro e inc hpos hl hnd hwf
    obtain ⟨k0, r0⟩ := hd
    have hg : mfind e.structures k0 = some r0 := hl (k0, r0) (List.mem_cons_self _ _)
    simp only [farmLoop]
    rw [if_pos hg]
    have hndtl : (tl.map Prod.fst).Nodup := by
      simpa using hnd.of_cons
    have hltl : ∀ kv, kv ∈ tl → mfind e.structures kv.1 = some kv.2 :=
      fun kv hkv => hl kv (List.mem_cons_of_mem _ hkv)
    cases hr : e.heap.get? r0 with
    | none =>
      obtain ⟨c1, c2, c3, c4, c5⟩ := ih e inc hpos hltl hndtl hwf
      refine ⟨c1, c2, ?_, ?_, ?_⟩
      · rw [c3]
        have hr2 : e.heap[r0]? = none := by rw [← List.get?_eq_getElem?]; exact hr
        have : countFarmEntries e.heap ((k0, r0) :: tl) = countFarmEntries e.heap tl := by
          simp [countFarmEntries, List.filter_cons, hr2]
        rw [this]
      · intro r' hr'
        exact c4 r' (fun hh => hr' (List.mem_cons_of_mem _ hh))
      · intro kv s hkv hheap hty
        rcases List.mem_cons.1 hkv with heq | htl
        · subst heq
          rw [hheap] at hr
          cases hr
        · exact c5 kv s htl hheap hty
    | some s0 =>
      simp only
      by_cases hf : s0.type = "farm"
      · rw [if_pos hf, if_neg (not_le.2 hpos)]
        have hlt0 : r0 < e.heap.length := by
          by_contra hge
          rw [List.get?_eq_getElem?, List.getElem?_eq_none (by omega)] at hr
          cases hr
        have hrefs : ∀ kv, kv ∈ tl → kv.2 ≠ r0 := by
          intro kv hkv heq
          have h1 := hltl kv hkv
          rw [heq] at h1
          have e1 := hwf kv.1 r0 s0 h1 hr
          have e2 := hwf k0 r0 s0 hg hr
          have : kv.1 = k0 := by rw [← e1, ← e2]
          have : k0 ∈ tl.map Prod.fst := List.mem_map.2 ⟨kv, hkv, this⟩
          simp only [List.map_cons, List.nodup_cons] at hnd
          exact hnd.1 this
        set s0' := { s0 with data :=
          { s0.data with foodPerTick := some (1 + (1/2) * ((s0.level : ℚ) - 1)) } } with hs0'
        set e' := { e with heap := e.heap.set r0 s0' } with he'
        have hheap' : ∀ r', r' ≠ r0 → e'.heap.get? r' = e.heap.get? r' := by
          intro r' hne
          show (e.heap.set r0 s0').get? r' = e.heap.get? r'
          rw [List.get?_eq_getElem?, List.get?_eq_getElem?]
          exact List.getElem?_set_ne (fun hh => hne hh.symm)
        have hheap0 : e'.heap.get? r0 = some s0' := by
          show (e.heap.set r0 s0').get? r0 = some s0'
          rw [List.get?_eq_getElem?]
          exact List.getElem?_set_self hlt0
        have hwf' : wfCoords e' := by
          intro k r s hfind hheap
          by_cases hrr : r = r0
          · subst hrr
            rw [hheap0] at hheap
            cases hheap
            exact hwf k r s0 hfind hr
          · exact hwf k r s hfind (by rw [← hheap' r hrr]; exact hheap)
        have hltl' : ∀ kv, kv ∈ tl → mfind e'.structures kv.1 = some kv.2 := hltl
        obtain ⟨c1, c2, c3, c4, c5⟩ := ih e' (inc + (10 - 10 * e.gameState.incomeTaxRate))
          hpos hltl' hndtl hwf'
        have hcount : countFarmEntries e'.heap tl = countFarmEntries e.heap tl := by
          unfold countFarmEntries
          congr 1
          apply List.filter_congr
          intro kv hkv
          rw [hheap' kv.2 (hrefs kv hkv)]
        refine ⟨c1, c2, ?_, ?_, ?_⟩
        · rw [c3, hcount]
          have hr2 : e.heap[r0]? = some s0 := by rw [← List.get?_eq_getElem?]; exact hr
          have hc : countFarmEntries e.heap ((k0, r0) :: tl) =
              countFarmEntries e.heap tl + 1 := by
            simp [countFarmEntries, List.filter_cons, hr2, hf]
          rw [hc]
          show _ = inc + ((countFarmEntries e.heap tl + 1 : ℕ) : ℚ) * _
          push_cast
          ring
        · intro r' hr'
          have hne : r' ≠ r0 := fun hh => hr' (by rw [hh]; exact List.mem_cons_self _ _)
          have hnt : r' ∉ tl.map Prod.snd := fun hh => hr' (List.mem_cons_of_mem _ hh)
          rw [c4 r' hnt, hheap' r' hne]
        · intro kv s hkv hheap hty
          rcases List.mem_cons.1 hkv with heq | htl
          · subst heq
            rw [hheap] at hr
            cases hr
            have hnotin : r0 ∉ tl.map Prod.snd := by
              intro hh
              obtain ⟨kv', hkv', hkv2⟩ := List.mem_map.1 hh
              exact hrefs kv' hkv' hkv2
            rw [c4 r0 hnotin, hheap0]
          · have hne := hrefs kv htl
            exact c5 kv s htl (by rw [hheap' kv.2 hne]; exact hheap) hty
      · rw [if_neg hf]
        obtain ⟨c1, c2, c3, c4, c5⟩ := ih e inc hpos hltl hndtl hwf
        refine ⟨c1, c2, ?_, ?_, ?_⟩
        · rw [c3]
          have hr2 : e.heap[r0]? = some s0 := by rw [← List.get?_eq_getElem?]; exact hr
          have : countFarmEntries e.heap ((k0, r0) :: tl) = countFarmEntries e.heap tl := by
            simp [countFarmEntries, List.filter_cons, hr2, hf]
          rw [this]
        · intro r' hr'
          exact c4 r' (fun hh => hr' (List.mem_cons_of_mem _ hh))
        · intro kv s hkv hheap hty
          rcases List.mem_cons.1 hkv with heq | htl
          · subst heq
            rw [hheap] at hr
            cases hr
            exact absurd hty hf
          · exact c5 kv s htl hheap hty

/-- A successful lookup witnesses membership. -/
theorem mem_of_mfind {β : Type} {m : List ((ℤ × ℤ) × β)} {k : ℤ × ℤ} {v : β}
    (h : mfind m k = some v) : (k, v) ∈ m := by
  induction m with
  | nil => cases h
  | cons hd tl ih =>
    obtain ⟨k0, v0⟩ := hd
    simp only [mfind] at h
    by_cases hk : k0 = k
    · rw [if_pos hk] at h
      cases h
      subst hk
      exact List.mem_cons_self _ _
    · rw [if_neg hk] at h
      exact List.mem_cons_of_mem _ (ih h)

/-- A tick's final structure map is the farm loop's (later stages do not
touch the map). -/
theorem tick_structures (e : Economy) :
    (tick e).structures = (farmLoop e.structures e 0).1.structures := by
  unfold tick
  dsimp only
  generalize farmLoop e.structures e 0 = fp
  rw [(mineStage_frame _).2.2.2, (lumberStage_frame _).2.2.2.2.1, growthStage_structures]

/-- A tick's final money is the pre-tick money plus the farm loop's
accumulated income (no other stage touches money). -/
theorem tick_money (e : Economy) :
    (tick e).gameState.money = e.gameState.money + (farmLoop e.structures e 0).2 := by
  have hm := farmLoop_money e.structures e 0
  unfold tick
  dsimp only
  generalize hg : farmLoop e.structures e 0 = fp
  rw [hg] at hm
  rw [(mineStage_frame _).2.1, (lumberStage_frame _).2.1, growthStage_gs_money]
  show (consumeStage _).money = _
  rw [consumeStage_money]
  show fp.1.gameState.money + fp.2 = _
  rw [hm]

/-- Every tile cached after the farm loop survives the rest of the tick with
its structure back-reference intact. -/
theorem tick_keepsStruct (e : Economy) :
    tileKeepsStruct (farmLoop e.structures e 0).1.world (tick e).world := by
  unfold tick
  dsimp only
  generalize farmLoop e.structures e 0 = fp
  refine tileKeepsStruct_trans ?_ (mineStage_keepsStruct _)
  refine tileKeepsStruct_trans ?_ (lumberStage_keepsStruct _)
  rw [growthStage_world]
  exact tileKeepsStruct_refl _

/-- A non-mine heap entry present after the farm loop survives the rest of
the tick unchanged. -/
theorem tick_heap_nonmine (e : Economy) (r : ℕ) (s : Structure)
    (hr : (farmLoop e.structures e 0).1.heap.get? r = some s)
    (hty : s.type ≠ "mine") :
    (tick e).heap.get? r = some s := by
  unfold tick
  dsimp only
  generalize hg : farmLoop e.structures e 0 = fp
  rw [hg] at hr
  unfold mineStage
  refine mineStage_heap_preserve _ _ r s ?_ hty
  rw [(lumberStage_frame _).2.2.2.2.2, growthStage_heap]
  exact hr

/-- C6: in a tick whose farm net income `10 - 10·incomeTaxRate` is not
positive (in particular at `incomeTaxRate = 1`), every farm is removed from
the structure map with its tile's structure reference cleared and no income
is collected; when the net income is positive, every farm survives in the
map, contributes exactly the net income to money, and has its `foodPerTick`
recomputed to `1 + 0.5·(level - 1)`.  The hypotheses say the structure map
has unique keys and every mapped object records its own coordinates, both
maintained by the game's build path. -/
theorem c6_farm_bankruptcy (e : Economy)
    (hnd : keysNodup e.structures) (hwf : wfCoords e) :
    (10 - 10 * e.gameState.incomeTaxRate ≤ 0 →
      (tick e).gameState.money = e.gameState.money ∧
      (∀ k r s, mfind e.structures k = some r → e.heap.get? r = some s →
        s.type = "farm" →
        mfind (tick e).structures k = none ∧
        ∃ t, mfind (tick e).world.tiles k = some t ∧ t.structure' = none)) ∧
    (0 < 10 - 10 * e.gameState.incomeTaxRate →
      (tick e).gameState.money = e.gameState.money +
        (countFarmEntries e.heap e.structures : ℚ) *
          (10 - 10 * e.gameState.incomeTaxRate) ∧
      (∀ k r s, mfind e.structures k = some r → e.heap.get? r = some s →
        s.type = "farm" →
        mfind (tick e).structures k = some r ∧
        (tick e).heap.get? r = some { s with data :=
          { s.data with foodPerTick := some (1 + (1/2) * ((s.level : ℚ) - 1)) } })) := by
  constructor
  · intro htax
    obtain ⟨c1, c2, c3, c4, c5⟩ := farmLoop_bankrupt e.structures e 0 htax hnd hwf
    constructor
    · rw [tick_money, c1, add_zero]
    · intro k r s hfind hheap hty
      have hmem : (k, r) ∈ e.structures := mem_of_mfind hfind
      obtain ⟨h5a, t, ht1, ht2⟩ := c5 k r s hmem hfind hheap hty
      constructor
      · rw [tick_structures]
        exact h5a
      · obtain ⟨t', ht1', hs'⟩ := tick_keepsStruct e k t ht1
        exact ⟨t', ht1', hs'.trans ht2⟩
  · intro hpos
    have hl : ∀ kv, kv ∈ e.structures → mfind e.structures kv.1 = some kv.2 := by
      intro kv hkv
      obtain ⟨k, v⟩ := kv
      exact mfind_of_mem_nodup hnd hkv
    obtain ⟨c1, c2, c3, c4, c5⟩ := farmLoop_alive e.structures e 0 hpos hl hnd hwf
    constructor
    · rw [tick_money, c3, zero_add]
    · intro k r s hfind hheap hty
      have hmem : (k, r) ∈ e.structures := mem_of_mfind hfind
      constructor
      · rw [tick_structures, c1]
        exact hfind
      · have h5 := c5 (k, r) s hmem hheap hty
        refine tick_heap_nonmine e r _ h5 ?_
        show s.type ≠ "mine"
        rw [hty]
        decide

/-- A flat tile holding one unit of stone, as cached by the scan worlds. -/
def stoneTile (x y : ℤ) : Tile := ⟨x, y, 0, ⟨1, 0, 0⟩, none, false, 0⟩

/-- A 9x9 block of cached stone tiles around the origin. -/
def c7World : World :=
  ⟨0, (List.range 9).flatMap (fun i => (List.range 9).map (fun j =>
    (((i : ℤ) - 4, (j : ℤ) - 4), stoneTile ((i : ℤ) - 4) ((j : ℤ) - 4))))⟩

/-- The data bag of a stone-tier mine that has extracted 99 units. -/
def c7MineData : SData :=
  { emptySData with resourceLevel := some "stone", extractedStone := some 99 }

/-- A stone-tier mine at the origin about to cross the upgrade threshold. -/
def c7Economy : Economy :=
  ⟨GameState.new, c7World, [((0, 0), 0)], [⟨"mine", 0, 0, 1, c7MineData⟩]⟩

section
attribute [local semireducible] Rat.add Rat.mul Rat.sub Rat.inv

/-- C7 counterexample: ticking this mine crosses the 100-extraction
threshold, so `tickMine` emits the upgrade message — the game state's
message log changes, not only wood and the mine's own data. -/
theorem c7_upgrade_message_counterexample :
    (tickMine c7Economy 0).gameState.messages ≠ c7Economy.gameState.messages ∧
    (tickMine c7Economy 0).heap.get? 0 =
      some ⟨"mine", 0, 0, 1,
        { emptySData with resourceLevel := some "iron", extractedStone := some 0 }⟩ := by
  constructor
  · decide
  · decide

end

/-- C10: every tile satisfies `isForest → forestHealth > 0` in every
reachable state: generation establishes it (a fresh forest tile draws
`forestHealth ∈ [70, 100]`), and a whole tick — in particular its lumber
stage, which decrements only live forest tiles and clears the flag the
moment health crosses to `≤ 0` — preserves the store-wide invariant. -/
theorem c10_forest_invariant (seed : ℤ) (perm : List ℕ) (x y : ℤ) (e : Economy) :
    ((genTile seed perm x y).isForest = true →
      70 ≤ (genTile seed perm x y).forestHealth ∧
      (genTile seed perm x y).forestHealth ≤ 100 ∧
      (genTile seed perm x y).forestHealth > 0) ∧
    (forestInv e.world → forestInv (tick e).world) := by
  constructor
  · intro h
    obtain ⟨h1, h2⟩ := genTile_forest_fields seed perm x y
    have hb := (generateForest_health seed perm x y (genTile seed perm x y).altitude).1
      (by rw [← h1]; exact h)
    rw [h2]
    exact ⟨hb.1, hb.2, by linarith [hb.1]⟩
  · intro hw
    unfold tick
    dsimp only
    apply mineStage_forestInv
    apply lumberStage_forestInv
    show forestInv (growthStage _).world
    rw [growthStage_world]
    exact farmLoop_forestInv e.structures e 0 hw

/-! ### Claim C2: the save/load round trip -/

/-- Appending to a list preserves every successful positional lookup. -/
theorem get?_extend {α : Type} (l ext : List α) (r : ℕ) (a : α)
    (h : l.get? r = some a) : (l ++ ext).get? r = some a := by
  rw [List.get?_eq_getElem?] at h ⊢
  have hlt : r < l.length := by
    by_contra hge
    rw [List.getElem?_eq_none (by omega)] at h
    cases h
  rw [List.getElem?_append_left hlt]
  exact h

/-- One step of `World.fromJSON`'s fold. -/
def worldStep (acc : Heap × World) (td : TileJSON) : Heap × World :=
  let p := Tile.fromJSON acc.1 td
  (p.1, { acc.2 with tiles := mset acc.2.tiles (p.2.x, p.2.y) p.2 })

/-- Rehydrating a list of serialized tiles whose recorded coordinates are
fresh and mutually distinct: the heap only grows, previously rehydrated
tiles persist, and each serialized tile reappears under its own coordinates
with all fields intact and its serialized structure allocated as a fresh
heap object. -/
theorem worldFromJSON_fold :
    ∀ (tds : List TileJSON) (h0 : Heap) (w0 : World),
      (w0.tiles.map Prod.fst ++ tds.map (fun td => (td.x, td.y))).Nodup →
      (∃ ext, (tds.foldl worldStep (h0, w0)).1 = h0 ++ ext) ∧
      (∀ k t, mfind w0.tiles k = some t →
        mfind (tds.foldl worldStep (h0, w0)).2.tiles k = some t) ∧
      (∀ td, td ∈ tds →
        ∃ t', mfind (tds.foldl worldStep (h0, w0)).2.tiles (td.x, td.y) = some t' ∧
          t'.x = td.x ∧ t'.y = td.y ∧ t'.altitude = td.altitude ∧
          t'.resources = td.resources ∧ t'.isForest = td.isForest ∧
          t'.forestHealth = td.forestHealth ∧
          (td.structure' = none → t'.structure' = none) ∧
          (∀ s, td.structure' = some s → ∃ r', t'.structure' = some r' ∧
            (tds.foldl worldStep (h0, w0)).1.get? r' = some s)) := by
  intro tds
  induction tds with
  | nil =>
    intro h0 w0 _
    exact ⟨⟨[], by simp⟩, fun k t h => h, by simp⟩
  | cons td0 rest ih =>
    intro h0 w0 hnd
    rw [List.map_cons] at hnd
    obtain ⟨hA, hB, hAB⟩ := List.nodup_append.1 hnd
    have hk0A : (td0.x, td0.y) ∉ w0.tiles.map Prod.fst := fun hh =>
      hAB hh (List.mem_cons_self _ _)
    have hfind0 : mfind w0.tiles (td0.x, td0.y) = none :=
      (mfind_eq_none_iff _ _).2 hk0A
    rw [List.foldl_cons]
    cases hs0 : td0.structure' with
    | none =>
      have hstep : worldStep (h0, w0) td0 = (h0, { w0 with
          tiles := mset w0.tiles (td0.x, td0.y)
            ⟨td0.x, td0.y, td0.altitude, td0.resources, none, td0.isForest,
              td0.forestHealth⟩ }) := by
        unfold worldStep Tile.fromJSON
        rw [hs0]
      rw [hstep]
      have hnd' : (({ w0 with
          tiles := mset w0.tiles (td0.x, td0.y)
            ⟨td0.x, td0.y, td0.altitude, td0.resources, none, td0.isForest,
              td0.forestHealth⟩ } : World).tiles.map Prod.fst ++
          rest.map (fun td => (td.x, td.y))).Nodup := by
        show ((mset w0.tiles (td0.x, td0.y) _).map Prod.fst ++ _).Nodup
        rw [mset_keys_of_none _ _ _ hfind0, List.append_assoc, List.singleton_append]
        exact hnd
      obtain ⟨⟨ext, hext⟩, hkeep, hnew⟩ := ih h0 _ hnd'
      refine ⟨⟨ext, hext⟩, ?_, ?_⟩
      · intro k t hk
        have hkne : (td0.x, td0.y) ≠ k := fun hh => by rw [← hh, hfind0] at hk; cases hk
        refine hkeep k t ?_
        show mfind (mset w0.tiles (td0.x, td0.y) _) k = some t
        rw [mfind_mset_ne _ _ hkne]
        exact hk
      · intro td htd
        rcases List.mem_cons.1 htd with heq | hrest
        · subst heq
          refine ⟨⟨td.x, td.y, td.altitude, td.resources, none, td.isForest,
            td.forestHealth⟩, hkeep _ _ ?_, rfl, rfl, rfl, rfl, rfl, rfl,
            fun _ => rfl, fun s hss => Option.noConfusion (hs0.symm.trans hss)⟩
          show mfind (mset w0.tiles (td.x, td.y) _) (td.x, td.y) = some _
          exact mfind_mset_self _ _ _
        · exact hnew td hrest
    | some s0 =>
      have hstep : worldStep (h0, w0) td0 = (h0 ++ [s0], { w0 with
          tiles := mset w0.tiles (td0.x, td0.y)
            ⟨td0.x, td0.y, td0.altitude, td0.resources, some h0.length, td0.isForest,
              td0.forestHealth⟩ }) := by
        unfold worldStep Tile.fromJSON
        rw [hs0]
      rw [hstep]
      have hnd' : (({ w0 with
          tiles := mset w0.tiles (td0.x, td0.y)
            ⟨td0.x, td0.y, td0.altitude, td0.resources, some h0.length, td0.isForest,
              td0.forestHealth⟩ } : World).tiles.map Prod.fst ++
          rest.map (fun td => (td.x, td.y))).Nodup := by
        show ((mset w0.tiles (td0.x, td0.y) _).map Prod.fst ++ _).Nodup
        rw [mset_keys_of_none _ _ _ hfind0, List.append_assoc, List.singleton_append]
        exact hnd
      obtain ⟨⟨ext, hext⟩, hkeep, hnew⟩ := ih (h0 ++ [s0]) _ hnd'
      refine ⟨⟨[s0] ++ ext, by rw [hext, List.append_assoc]⟩, ?_, ?_⟩
      · intro k t hk
        have hkne : (td0.x, td0.y) ≠ k := fun hh => by rw [← hh, hfind0] at hk; cases hk
        refine hkeep k t ?_
        show mfind (mset w0.tiles (td0.x, td0.y) _) k = some t
        rw [mfind_mset_ne _ _ hkne]
        exact hk
      · intro td htd
        rcases List.mem_cons.1 htd with heq | hrest
        · subst heq
          refine ⟨⟨td.x, td.y, td.altitude, td.resources, some h0.length, td.isForest,
            td.forestHealth⟩, hkeep _ _ ?_, rfl, rfl, rfl, rfl, rfl, rfl,
            fun hh => Option.noConfusion (hs0.symm.trans hh), ?_⟩
          · show mfind (mset w0.tiles (td.x, td.y) _) (td.x, td.y) = some _
            exact mfind_mset_self _ _ _
          · intro s hss
            have hs : s0 = s := Option.some.inj (hs0.symm.trans hss)
            subst hs
            refine ⟨h0.length, rfl, ?_⟩
            rw [hext]
            refine get?_extend _ _ _ _ ?_
            rw [List.get?_eq_getElem?]
            exact List.getElem?_concat_length _ _
        · exact hnew td hrest

/-- One step of `Economy.fromJSON`'s fold. -/
def econStep (e : Economy) (s : Structure) : Economy :=
  { e with structures := mset e.structures (s.x, s.y) e.heap.length,
           heap := e.heap ++ [s] }

/-- Rehydrating a list of serialized structures with fresh, mutually
distinct coordinates: the game state and world are untouched, the heap only
grows, existing map entries persist, and each serialized structure is
allocated as a fresh heap object keyed by its own coordinates. -/
theorem econFromJSON_fold :
    ∀ (ss : List Structure) (e0 : Economy),
      (e0.structures.map Prod.fst ++ ss.map (fun s => (s.x, s.y))).Nodup →
      (ss.foldl econStep e0).gameState = e0.gameState ∧
      (ss.foldl econStep e0).world = e0.world ∧
      (∃ ext, (ss.foldl econStep e0).heap = e0.heap ++ ext) ∧
      (∀ k r, mfind e0.structures k = some r →
        mfind (ss.foldl econStep e0).structures k = some r) ∧
      (∀ s, s ∈ ss → ∃ r', mfind (ss.foldl econStep e0).structures (s.x, s.y) = some r' ∧
        (ss.foldl econStep e0).heap.get? r' = some s) := by
  intro ss
  induction ss with
  | nil =>
    intro e0 _
    exact ⟨rfl, rfl, ⟨[], by simp⟩, fun k r h => h, by simp⟩
  | cons s0 rest ih =>
    intro e0 hnd
    rw [List.map_cons] at hnd
    obtain ⟨hA, hB, hAB⟩ := List.nodup_append.1 hnd
    have hk0A : (s0.x, s0.y) ∉ e0.structures.map Prod.fst := fun hh =>
      hAB hh (List.mem_cons_self _ _)
    have hfind0 : mfind e0.structures (s0.x, s0.y) = none :=
      (mfind_eq_none_iff _ _).2 hk0A
    rw [List.foldl_cons]
    have hnd' : ((econStep e0 s0).structures.map Prod.fst ++
        rest.map (fun s => (s.x, s.y))).Nodup := by
      show ((mset e0.structures (s0.x, s0.y) e0.heap.length).map Prod.fst ++ _).Nodup
      rw [mset_keys_of_none _ _ _ hfind0, List.append_assoc, List.singleton_append]
      exact hnd
    obtain ⟨c1, c2, ⟨ext, hext⟩, c4, c5⟩ := ih (econStep e0 s0) hnd'
    refine ⟨c1, c2, ?_, ?_, ?_⟩
    · refine ⟨[s0] ++ ext, ?_⟩
      rw [hext]
      show (e0.heap ++ [s0]) ++ ext = _
      rw [List.append_assoc]
    · intro k r hk
      have hkne : (s0.x, s0.y) ≠ k := fun hh => by rw [← hh, hfind0] at hk; cases hk
      refine c4 k r ?_
      show mfind (mset e0.structures (s0.x, s0.y) e0.heap.length) k = some r
      rw [mfind_mset_ne _ _ hkne]
      exact hk
    · intro s hs
      rcases List.mem_cons.1 hs with heq | hrest
      · subst heq
        refine ⟨e0.heap.length, c4 _ _ ?_, ?_⟩
        · show mfind (mset e0.structures (s.x, s.y) e0.heap.length) (s.x, s.y) = some _
          exact mfind_mset_self _ _ _
        · rw [hext]
          refine get?_extend _ _ _ _ ?_
          show (e0.heap ++ [s]).get? e0.heap.length = some s
          rw [List.get?_eq_getElem?]
          exact List.getElem?_concat_length _ _
      · exact c5 s hrest

/-- When every map entry's object resolves and records its key, the
serialized structure list is keyed exactly like the map. -/
theorem filterMapKeys {heap : Heap} : ∀ {m : List ((ℤ × ℤ) × ℕ)},
    keysNodup m →
    (∀ k r, mfind m k = some r → ∃ s, heap.get? r = some s ∧ (s.x, s.y) = k) →
    ((m.map Prod.snd).filterMap (fun r => heap.get? r)).map (fun s => (s.x, s.y)) =
      m.map Prod.fst := by
  intro m
  induction m with
  | nil =>
    intro _ _
    simp
  | cons hd tl ih =>
    intro hnd href
    obtain ⟨k0, r0⟩ := hd
    have hm0 : mfind ((k0, r0) :: tl) k0 = some r0 := by simp [mfind]
    obtain ⟨s0, hs0, hc0⟩ := href k0 r0 hm0
    simp only [keysNodup, List.map_cons, List.nodup_cons] at hnd
    have htl : ∀ k r, mfind tl k = some r →
        ∃ s, heap.get? r = some s ∧ (s.x, s.y) = k := by
      intro k r hk
      refine href k r ?_
      have hkne : k0 ≠ k := by
        intro hh
        subst hh
        exact hnd.1 (List.mem_map.2 ⟨(k0, r), mem_of_mfind hk, rfl⟩)
      simp only [mfind, if_neg hkne]
      exact hk
    simp only [List.map_cons, List.filterMap_cons, hs0]
    rw [ih hnd.2 htl, hc0]

/-- C2 amended: the load path applied to a save restores the seven game
state scalars but resets the message log to `[]`; every cached tile
reappears under its key with every persisted field intact, its structure
back-reference rehydrated to a fresh heap object of identical content, and
every structure map entry reappears under its key pointing at a fresh heap
object of identical content.  Field-for-field equality fails (messages are
dropped), and a tile back-reference and the map entry for the same
coordinate no longer reference the same heap object after a round trip (see
the counterexample), so subsequent mutations through one are not seen
through the other.  The hypotheses are the store invariants of reachable
states: tiles and map entries are keyed by their recorded coordinates, keys
are unique, and map references resolve. -/
theorem c2_save_load_roundtrip (e : Economy)
    (hndT : keysNodup e.world.tiles)
    (hcoT : ∀ k t, mfind e.world.tiles k = some t → (t.x, t.y) = k)
    (hndS : keysNodup e.structures)
    (hcoS : wfCoords e)
    (hrefS : ∀ k r, mfind e.structures k = some r → ∃ s, e.heap.get? r = some s) :
    (loadGame (saveGame e)).gameState = { e.gameState with messages := [] } ∧
    (∀ k t, mfind e.world.tiles k = some t →
      ∃ t', mfind (loadGame (saveGame e)).world.tiles k = some t' ∧
        t'.x = t.x ∧ t'.y = t.y ∧ t'.altitude = t.altitude ∧
        t'.resources = t.resources ∧ t'.isForest = t.isForest ∧
        t'.forestHealth = t.forestHealth ∧
        (t.structure' = none → t'.structure' = none) ∧
        (∀ r s, t.structure' = some r → e.heap.get? r = some s →
          ∃ r', t'.structure' = some r' ∧
            (loadGame (saveGame e)).heap.get? r' = some s)) ∧
    (∀ k r s, mfind e.structures k = some r → e.heap.get? r = some s →
      ∃ r', mfind (loadGame (saveGame e)).structures k = some r' ∧
        (loadGame (saveGame e)).heap.get? r' = some s) := by
  set tds := e.world.tiles.map (fun kv => Tile.toJSON e.heap kv.2) with htds
  set pw := tds.foldl worldStep ([], World.new e.world.seed) with hpwdef
  set ss := (e.structures.map Prod.snd).filterMap (fun r => e.heap.get? r) with hssdef
  set econ := ss.foldl econStep ⟨GameState.new, pw.2, [], pw.1⟩ with hecondef
  have hload : loadGame (saveGame e) =
      { econ with gameState := GameState.fromJSON (GameState.toJSON e.gameState) } := rfl
  have hkeysT : tds.map (fun td => (td.x, td.y)) = e.world.tiles.map Prod.fst := by
    rw [htds, List.map_map]
    refine List.map_congr_left ?_
    intro kv hkv
    obtain ⟨k, t⟩ := kv
    show (t.x, t.y) = k
    exact hcoT k t (mfind_of_mem_nodup hndT hkv)
  have hndTds : ((World.new e.world.seed).tiles.map Prod.fst ++
      tds.map (fun td => (td.x, td.y))).Nodup := by
    show (([] : List (ℤ × ℤ)) ++ tds.map (fun td => (td.x, td.y))).Nodup
    rw [List.nil_append, hkeysT]
    exact hndT
  obtain ⟨⟨extW, hextW⟩, hkeepW, hnewW⟩ :=
    worldFromJSON_fold tds [] (World.new e.world.seed) hndTds
  have hkeysS : ss.map (fun s => (s.x, s.y)) = e.structures.map Prod.fst := by
    rw [hssdef]
    refine filterMapKeys hndS ?_
    intro k r h
    obtain ⟨s, hs⟩ := hrefS k r h
    exact ⟨s, hs, hcoS k r s h hs⟩
  have hndSS : ((⟨GameState.new, pw.2, [], pw.1⟩ : Economy).structures.map Prod.fst ++
      ss.map (fun s => (s.x, s.y))).Nodup := by
    show (([] : List (ℤ × ℤ)) ++ ss.map (fun s => (s.x, s.y))).Nodup
    rw [List.nil_append, hkeysS]
    exact hndS
  obtain ⟨hg1, hg2, ⟨extE, hextE⟩, hkeepE, hnewE⟩ :=
    econFromJSON_fold ss ⟨GameState.new, pw.2, [], pw.1⟩ hndSS
  rw [hload]
  refine ⟨rfl, ?_, ?_⟩
  · intro k t hfind
    have htd : Tile.toJSON e.heap t ∈ tds :=
      htds ▸ List.mem_map.2 ⟨(k, t), mem_of_mfind hfind, rfl⟩
    obtain ⟨t', ht', hx, hy, halt, hres, hfor, hfh, hnone, hsome⟩ := hnewW _ htd
    have hkey : ((Tile.toJSON e.heap t).x, (Tile.toJSON e.heap t).y) = k := by
      show (t.x, t.y) = k
      exact hcoT k t hfind
    rw [hkey] at ht'
    refine ⟨t', ?_, hx, hy, halt, hres, hfor, hfh, ?_, ?_⟩
    · show mfind econ.world.tiles k = some t'
      rw [← hecondef] at hg2
      rw [hg2]
      exact ht'
    · intro htn
      refine hnone ?_
      show t.structure'.bind (fun r => e.heap.get? r) = none
      rw [htn]
      exact rfl
    · intro r s htr hhr
      have hts : (Tile.toJSON e.heap t).structure' = some s := by
        show t.structure'.bind (fun r => e.heap.get? r) = some s
        rw [htr]
        exact hhr
      obtain ⟨r', hr1, hr2⟩ := hsome s hts
      refine ⟨r', hr1, ?_⟩
      show econ.heap.get? r' = some s
      rw [← hecondef] at hextE
      rw [hextE]
      exact get?_extend _ _ _ _ hr2
  · intro k r s hfind hheap
    have hsIn : s ∈ ss :=
      hssdef ▸ List.mem_filterMap.2 ⟨r, List.mem_map.2 ⟨(k, r), mem_of_mfind hfind, rfl⟩,
        hheap⟩
    obtain ⟨r', hr1, hr2⟩ := hnewE s hsIn
    have hkey : ((s.x, s.y) : ℤ × ℤ) = k := hcoS k r s hfind hheap
    rw [hkey] at hr1
    exact ⟨r', hr1, hr2⟩

/-- A just-built farm at the origin with one logged message: the economy's
map entry and the tile's back-reference share heap cell 0. -/
def c2Example : Economy where
  gameState := { GameState.new with
    incomeTaxRate := 0
    messages := [⟨"Built farm", "success", 0⟩] }
  world := ⟨1, [((0, 0), ⟨0, 0, 0, ⟨1, 0, 0⟩, some 0, false, 0⟩)]⟩
  structures := [((0, 0), 0)]
  heap := [⟨"farm", 0, 0, 1, getDefaultStructureData "farm"⟩]

section
attribute [local semireducible] Rat.add Rat.mul Rat.sub Rat.inv

/-- C2 counterexample: the round trip is not field-for-field — the message
log is dropped — and the rehydrated tile back-reference (cell 0) and the
rehydrated map entry (cell 1) are two different heap objects, so the next
tick's farm update is visible through the map entry but not through the
tile, while before saving both views shared cell 0 and stayed in sync. -/
theorem c2_roundtrip_counterexample :
    loadGame (saveGame c2Example) ≠ c2Example ∧
    (loadGame (saveGame c2Example)).gameState.messages = [] ∧
    c2Example.gameState.messages ≠ [] ∧
    (mfind (loadGame (saveGame c2Example)).world.tiles (0, 0)).map Tile.structure' =
      some (some 0) ∧
    mfind (loadGame (saveGame c2Example)).structures (0, 0) = some 1 ∧
    mfind c2Example.structures (0, 0) = some 0 ∧
    (mfind c2Example.world.tiles (0, 0)).map Tile.structure' = some (some 0) ∧
    ((tick c2Example).heap.get? 0).map (fun s => s.data.foodPerTick) =
      some (some 1) ∧
    ((tick (loadGame (saveGame c2Example))).heap.get? 1).map
      (fun s => s.data.foodPerTick) = some (some 1) ∧
    ((tick (loadGame (saveGame c2Example))).heap.get? 0).map
      (fun s => s.data.foodPerTick) = some (some (1/2)) := by
  decide

end

/-! ### Concrete instances for the theorems with store-invariant hypotheses -/

/-- A lookup in a one-entry map pins down both the key and the value. -/
theorem mfind_singleton {β : Type} {k0 k : ℤ × ℤ} {v0 v : β}
    (h : mfind [(k0, v0)] k = some v) : k0 = k ∧ v0 = v := by
  simp only [mfind] at h
  by_cases hk : k0 = k
  · rw [if_pos hk] at h
    cases h
    exact ⟨hk, rfl⟩
  · rw [if_neg hk] at h
    cases h

/-- One farm at the origin under a 100% income tax. -/
def c6Example : Economy where
  gameState := { GameState.new with incomeTaxRate := 1 }
  world := ⟨1, [((0, 0), ⟨0, 0, 0, ⟨0, 0, 0⟩, some 0, false, 0⟩)]⟩
  structures := [((0, 0), 0)]
  heap := [⟨"farm", 0, 0, 1, getDefaultStructureData "farm"⟩]

/-- A flat target tile at the origin. -/
def c9Tile : Tile := ⟨0, 0, 0, ⟨0, 0, 0⟩, none, false, 0⟩

/-- The four axis neighbors of the origin, cached flat. -/
def c9World : World :=
  ⟨1, [((-1, 0), ⟨-1, 0, 0, ⟨0, 0, 0⟩, none, false, 0⟩),
       ((1, 0), ⟨1, 0, 0, ⟨0, 0, 0⟩, none, false, 0⟩),
       ((0, -1), ⟨0, -1, 0, ⟨0, 0, 0⟩, none, false, 0⟩),
       ((0, 1), ⟨0, 1, 0, ⟨0, 0, 0⟩, none, false, 0⟩)]⟩

/-- A fresh economy over that world. -/
def c9Econ : Economy := ⟨GameState.new, c9World, [], []⟩

section
attribute [local semireducible] Rat.add Rat.mul Rat.sub Rat.inv

theorem c6_farm_bankruptcy_witness :
    keysNodup c6Example.structures ∧
    10 - 10 * c6Example.gameState.incomeTaxRate ≤ 0 ∧
    mfind c6Example.structures (0, 0) = some 0 ∧
    mfind (tick c6Example).structures (0, 0) = none := by
  have hwf : wfCoords c6Example := by
    intro k r s h1 h2
    obtain ⟨hk, hr⟩ := mfind_singleton h1
    subst hk
    subst hr
    have h3 : some (⟨"farm", 0, 0, 1, getDefaultStructureData "farm"⟩ : Structure) =
        some s := h2
    cases h3
    rfl
  refine ⟨by unfold keysNodup; decide, by decide, by decide, ?_⟩
  exact (((c6_farm_bankruptcy c6Example (by unfold keysNodup; decide) hwf).1
    (by decide)).2 (0, 0) 0 ⟨"farm", 0, 0, 1, getDefaultStructureData "farm"⟩
    (by decide) (by decide) (by decide)).1

theorem c9_unknown_type_builds_witness :
    ("tower" : String) ≠ "house" ∧
    (0 : ℚ) ≤ c9Econ.gameState.money ∧
    c9Tile.structure' = none ∧
    (buildStructure c9Econ c9Tile "tower").2 =
      ⟨true, none, some ⟨"tower", c9Tile.x, c9Tile.y, 1, emptySData⟩⟩ := by
  refine ⟨by decide, by decide, by decide, ?_⟩
  exact (c9_unknown_type_builds c9Econ c9Tile "tower" (by decide) (by decide)
    (by decide) (by decide) (by decide) (by decide) (by decide) (by decide)
    (by decide) (by decide) (by decide) (by decide) (by decide) (by decide)).2.2.2.1

theorem c2_save_load_roundtrip_witness :
    keysNodup c2Example.world.tiles ∧
    keysNodup c2Example.structures ∧
    (loadGame (saveGame c2Example)).gameState =
      { c2Example.gameState with messages := [] } := by
  have hcoT : ∀ k t, mfind c2Example.world.tiles k = some t → (t.x, t.y) = k := by
    intro k t h
    obtain ⟨hk, ht⟩ := mfind_singleton h
    subst hk
    subst ht
    rfl
  have hcoS : wfCoords c2Example := by
    intro k r s h1 h2
    obtain ⟨hk, hr⟩ := mfind_singleton h1
    subst hk
    subst hr
    have h3 : some (⟨"farm", 0, 0, 1, getDefaultStructureData "farm"⟩ : Structure) =
        some s := h2
    cases h3
    rfl
  have hrefS : ∀ k r, mfind c2Example.structures k = some r →
      ∃ s, c2Example.heap.get? r = some s := by
    intro k r h
    obtain ⟨hk, hr⟩ := mfind_singleton h
    subst hr
    exact ⟨⟨"farm", 0, 0, 1, getDefaultStructureData "farm"⟩, rfl⟩
  refine ⟨by unfold keysNodup; decide, by unfold keysNodup; decide, ?_⟩
  exact (c2_save_load_roundtrip c2Example (by unfold keysNodup; decide) hcoT
    (by unfold keysNodup; decide) hcoS hrefS).1

end

end Cresville
